import Mathlib

/-!
Verification development for the go-obj repository: a Wavefront OBJ
text-format reader (reader.go), a group extractor (group.go), a polygon
triangulator and an OBJ writer.

Modelling conventions:
* Go strings are modelled as lists of characters (one entry per rune).
* Go slices are Lean lists; in-place mutation becomes functional update.
* Go int is modelled as Lean Int (64-bit overflow is not modelled: the
  repository never exercises indices anywhere near the int64 range).
* Floating-point scalars (float32 parsed by strconv.ParseFloat and printed
  by the fmt %g verb) are abstracted into a FloatModel parameter holding
  the carrier type together with its parse and format functions; none of
  the verified claims depends on the numeric value of a scalar, only on
  how many scalars a line contributes and on parse success or failure.
* Go panics (out-of-range slice indexing) are modelled by Option/none.
-/

namespace GoObj

/-- Go strings viewed as rune lists. -/
abbrev Str := List Char

/-- The character class accepted by unicode.IsSpace for the Latin-1 range,
used by strings.TrimSpace and strings.Fields in reader.go. -/
def isGoSpace (c : Char) : Bool :=
  c = ' ' || c = '\t' || c = '\n' || c = '\x0b' || c = '\x0c' || c = '\r' ||
  c = '\u0085' || c = ' '

/-- The character class of the regexp escape for whitespace used by the
group, usemtl and mtllib patterns in reader.go (Perl class, ASCII-only). -/
def isReSpace (c : Char) : Bool :=
  c = '\t' || c = '\n' || c = '\x0c' || c = '\r' || c = ' '

/-- strings.TrimSpace from the Go standard library. -/
def goTrimSpace (s : Str) : Str :=
  ((s.dropWhile isGoSpace).reverse.dropWhile isGoSpace).reverse

/-- Truncation of a line at the first hash character, as done by the
IndexRune test at the top of ObjReader.Read. -/
def commentStrip (s : Str) : Str :=
  s.takeWhile (fun c => c ≠ '#')

/-- Accumulator loop behind goFields; the second argument is the reversed
current token. -/
def goFieldsAux : Str → Str → List Str
  | [], acc => if acc.isEmpty then [] else [acc.reverse]
  | c :: cs, acc =>
    if isGoSpace c then
      if acc.isEmpty then goFieldsAux cs [] else acc.reverse :: goFieldsAux cs []
    else goFieldsAux cs (c :: acc)

/-- strings.Fields from the Go standard library: split around runs of
whitespace, dropping empty fields. -/
def goFields (s : Str) : List Str := goFieldsAux s []

/-- Accumulator loop behind goSplit. -/
def goSplitAux (sep : Char) : Str → Str → List Str
  | [], acc => [acc.reverse]
  | c :: cs, acc =>
    if c = sep then acc.reverse :: goSplitAux sep cs []
    else goSplitAux sep cs (c :: acc)

/-- strings.Split on a single separator character (empty pieces kept),
used to model the slash-delimited face-corner grammars. -/
def goSplit (s : Str) (sep : Char) : List Str := goSplitAux sep s []

/-- strings.ToLower restricted to ASCII; the dispatcher in ObjReader.Read
only compares the result against ASCII keywords. -/
def goToLower (s : Str) : Str := s.map Char.toLower

/-- Numeric value of a decimal digit character. -/
def digitVal (c : Char) : Nat := c.toNat - '0'.toNat

/-- Decimal value of a digit string (most significant first). -/
def digitsVal (s : Str) : Nat := s.foldl (fun a c => 10 * a + digitVal c) 0

/-- Whether every character is a decimal digit. -/
def allDigits (s : Str) : Bool := s.all Char.isDigit

/-- Full match of the regexp fragment for one or more digits, returning
the decimal value. -/
def matchNat (s : Str) : Option Nat :=
  if s.isEmpty then none
  else if allDigits s then some (digitsVal s) else none

/-- Full match of a signed integer token as accepted by the face-corner
regexps of reader.go (an optional minus sign followed by digits). -/
def matchInt (s : Str) : Option Int :=
  if s.head? = some '-' then (matchNat s.tail).map (fun n => -(n : Int))
  else (matchNat s).map (fun n => (n : Int))

/-- strconv.Atoi: an optional plus or minus sign followed by digits.
The int64 range check of the Go implementation is not modelled. -/
def goAtoi (s : Str) : Option Int :=
  if s.head? = some '+' then (matchNat s.tail).map (fun n => (n : Int))
  else if s.head? = some '-' then (matchNat s.tail).map (fun n => -(n : Int))
  else (matchNat s).map (fun n => (n : Int))

/-- Decimal digit character for a value below ten. -/
def digitChar (n : Nat) : Char := Char.ofNat ('0'.toNat + n)

/-- Fuel-indexed digit printer (the fuel makes the recursion structural,
so concrete evaluation reduces inside the kernel). -/
def natDigitsAux : Nat → Nat → Str
  | 0, _ => []
  | fuel + 1, n =>
    if n < 10 then [digitChar n]
    else natDigitsAux fuel (n / 10) ++ [digitChar (n % 10)]

/-- Decimal representation of a natural number, as printed by the fmt
%d verb. -/
def natDigits (n : Nat) : Str := natDigitsAux (n + 1) n

/-- Decimal representation of an integer, as printed by the fmt %d verb. -/
def intToStr (i : Int) : Str :=
  if i < 0 then '-' :: natDigits i.natAbs else natDigits i.toNat

/-! ## Data model (group.go and the buffer/record types) -/

/-- One corner of a face: vertex, normal and texture-coordinate indices,
with -1 as the absent sentinel (reader.go). -/
structure FaceCorner where
  VertexIndex : Int
  NormalIndex : Int
  TexCoordIndex : Int
  deriving DecidableEq, Repr

/-- A face: ordered corners plus the material active when it was parsed. -/
structure Face where
  Corners : List FaceCorner
  Material : Str
  deriving DecidableEq, Repr

/-- A polyline record produced by processLine. -/
structure Line where
  Corners : List Int
  Material : Str
  deriving DecidableEq, Repr

/-- A named contiguous face range (group.go). -/
structure Group where
  Name : Str
  FirstFaceIndex : Int
  FaceCount : Int
  deriving DecidableEq, Repr

/-- A material-driven face range (group.go). -/
structure FaceGroup where
  Offset : Int
  Size : Int
  deriving DecidableEq, Repr

/-- Three scalar components. -/
abbrev Vec3 (α : Type) := α × α × α

/-- Two scalar components. -/
abbrev Vec2 (α : Type) := α × α

/-- The mesh buffer of the repository, parametric in the scalar type. -/
structure ObjBuffer (α : Type) where
  activeMaterial : Str := []
  MTL : Str := []
  V : List (Vec3 α) := []
  VN : List (Vec3 α) := []
  VT : List (Vec2 α) := []
  F : List Face := []
  L : List Line := []
  G : List Group := []
  FaceGroup : List GoObj.FaceGroup := []
  deriving DecidableEq

/-- Options accepted by ObjReader.SetOptions. -/
structure ReadOptions where
  DiscardDegeneratedFaces : Bool := false
  deriving DecidableEq, Repr

/-- Abstraction of the float32 scalar domain: the carrier together with the
strconv.ParseFloat reading of a token and the fmt %g printing of a value. -/
structure FloatModel where
  Flt : Type
  parse : Str → Option Flt
  fmt : Flt → Str

/-- Error kinds raised by the line handlers of reader.go; the error message
text is abstracted into a tag per fmt.Errorf site. -/
inductive PErr where
  | fieldCount
  | badNumber
  | badFaceField
  | vertexZero
  | normalZero
  | texcoordZero
  | vertexRange
  | normalRange
  | texcoordRange
  | badGroupLine
  | mtlAlreadySet
  | badMtllibLine
  | badUsemtlLine
  | unknownKeyword
  deriving DecidableEq, Repr

/-- A handler error wrapped with the 1-based line number and the processed
line text, as in the lineError type. -/
structure LineErr where
  lineNumber : Nat
  line : Str
  err : PErr
  deriving DecidableEq, Repr

/-! ## Line handlers (reader.go) -/

/-- processVertex: a v line takes 3 or 4 numeric fields (w ignored) and
appends one position. -/
def processVertex {α : Type} (parse : Str → Option α) (st : ObjBuffer α)
    (fields : List Str) : Except PErr (ObjBuffer α) :=
  if fields.length ≠ 3 ∧ fields.length ≠ 4 then .error .fieldCount
  else
    match parse (fields.getD 0 []), parse (fields.getD 1 []), parse (fields.getD 2 []) with
    | some x, some y, some z => .ok { st with V := st.V ++ [(x, y, z)] }
    | _, _, _ => .error .badNumber

/-- processVertexTexCoord: a vt line takes exactly 2 numeric fields and
appends one texture coordinate. -/
def processVertexTexCoord {α : Type} (parse : Str → Option α) (st : ObjBuffer α)
    (fields : List Str) : Except PErr (ObjBuffer α) :=
  if fields.length ≠ 2 then .error .fieldCount
  else
    match parse (fields.getD 0 []), parse (fields.getD 1 []) with
    | some s, some t => .ok { st with VT := st.VT ++ [(s, t)] }
    | _, _ => .error .badNumber

/-- processVertexNormal: a vn line takes exactly 3 numeric fields and
appends one normal. -/
def processVertexNormal {α : Type} (parse : Str → Option α) (st : ObjBuffer α)
    (fields : List Str) : Except PErr (ObjBuffer α) :=
  if fields.length ≠ 3 then .error .fieldCount
  else
    match parse (fields.getD 0 []), parse (fields.getD 1 []), parse (fields.getD 2 []) with
    | some x, some y, some z => .ok { st with VN := st.VN ++ [(x, y, z)] }
    | _, _, _ => .error .badNumber

/-- parseFaceField: classify one corner token against the four anchored
regexps (INT, INT/INT, INT/INT/INT, INT//INT) and read the raw values. -/
def parseFaceField (field : Str) : Except PErr FaceCorner :=
  match goSplit field '/' with
  | [a] =>
    match matchInt a with
    | some v => .ok ⟨v, -1, -1⟩
    | none => .error .badFaceField
  | [a, b] =>
    match matchInt a, matchInt b with
    | some v, some t => .ok ⟨v, -1, t⟩
    | _, _ => .error .badFaceField
  | [a, b, c] =>
    if b.isEmpty then
      match matchInt a, matchInt c with
      | some v, some n => .ok ⟨v, n, -1⟩
      | _, _ => .error .badFaceField
    else
      match matchInt a, matchInt b, matchInt c with
      | some v, some t, some n => .ok ⟨v, n, t⟩
      | _, _, _ => .error .badFaceField
  | _ => .error .badFaceField

/-- Vertex-slot branch of the processFace body: negative raw values become
length plus value when positions exist (and pass through unchanged when the
position array is still empty), positive values drop to 0-based, zero is
fatal. -/
def resolveVertexIdx (lenV : Nat) (k : Int) : Except PErr Int :=
  if k < 0 then
    if lenV > 0 then .ok ((lenV : Int) + k) else .ok k
  else if k > 0 then .ok (k - 1)
  else .error .vertexZero

/-- Normal-slot branch of the processFace body: -1 is the valid absent
sentinel and passes through; values below -1 resolve relative to the
normal count when normals exist; positive values drop to 0-based; zero is
fatal. -/
def resolveNormalIdx (lenVN : Nat) (k : Int) : Except PErr Int :=
  if k < -1 then
    if lenVN > 0 then .ok ((lenVN : Int) + k) else .ok k
  else if k > 0 then .ok (k - 1)
  else if k = 0 then .error .normalZero
  else .ok k

/-- Texture-coordinate-slot branch of the processFace body, identical in
shape to the normal slot. -/
def resolveTexCoordIdx (lenVT : Nat) (k : Int) : Except PErr Int :=
  if k < -1 then
    if lenVT > 0 then .ok ((lenVT : Int) + k) else .ok k
  else if k > 0 then .ok (k - 1)
  else if k = 0 then .error .texcoordZero
  else .ok k

/-- The three bounds validations at the end of the processFace corner loop,
in source order: the vertex check fires on any index outside of the range
when positions exist; the normal and texture-coordinate checks only fire
on a non-negative index of at least the array length. -/
def validateCorner (lenV lenVN lenVT : Nat) (v n t : Int) : Except PErr FaceCorner :=
  if lenV > 0 ∧ (v < 0 ∨ v ≥ (lenV : Int)) then .error .vertexRange
  else if lenVN > 0 ∧ n ≥ 0 ∧ n ≥ (lenVN : Int) then .error .normalRange
  else if lenVT > 0 ∧ t ≥ 0 ∧ t ≥ (lenVT : Int) then .error .texcoordRange
  else .ok ⟨v, n, t⟩

/-- The per-corner body of processFace: relative-index resolution for the
three slots followed by the three bounds validations, in source order. -/
def resolveCorner (lenV lenVN lenVT : Nat) (c0 : FaceCorner) : Except PErr FaceCorner :=
  match resolveVertexIdx lenV c0.VertexIndex with
  | .error e => .error e
  | .ok v =>
    match resolveNormalIdx lenVN c0.NormalIndex with
    | .error e => .error e
    | .ok n =>
      match resolveTexCoordIdx lenVT c0.TexCoordIndex with
      | .error e => .error e
      | .ok t => validateCorner lenV lenVN lenVT v n t

/-- Field loop of processFace: parse and resolve each corner token,
stopping at the first error. -/
def buildCorners (lenV lenVN lenVT : Nat) : List Str → Except PErr (List FaceCorner)
  | [] => .ok []
  | f :: fs =>
    match parseFaceField f with
    | .error e => .error e
    | .ok c0 =>
      match resolveCorner lenV lenVN lenVT c0 with
      | .error e => .error e
      | .ok c =>
        match buildCorners lenV lenVN lenVT fs with
        | .error e => .error e
        | .ok cs => .ok (c :: cs)

/-- Duplicate-vertex scan of isFaceAccepted, with the occurrence set
modelled as the list of already-seen vertex indices. -/
def hasDupVertex : List FaceCorner → List Int → Bool
  | [], _ => false
  | c :: cs, seen =>
    if seen.contains c.VertexIndex then true
    else hasDupVertex cs (c.VertexIndex :: seen)

/-- isFaceAccepted: under DiscardDegeneratedFaces a face repeating a vertex
index is silently dropped. -/
def isFaceAccepted (opts : ReadOptions) (f : Face) : Bool :=
  if opts.DiscardDegeneratedFaces then ¬ hasDupVertex f.Corners [] else true

/-- processFace: at least 3 corner tokens, each parsed, resolved and
validated, then appended as one face unless the degeneracy filter drops it. -/
def processFace {α : Type} (opts : ReadOptions) (st : ObjBuffer α)
    (fields : List Str) : Except PErr (ObjBuffer α) :=
  if fields.length < 3 then .error .fieldCount
  else
    match buildCorners st.V.length st.VN.length st.VT.length fields with
    | .error e => .error e
    | .ok cs =>
      if isFaceAccepted opts ⟨cs, st.activeMaterial⟩ then
        .ok { st with F := st.F ++ [⟨cs, st.activeMaterial⟩] }
      else .ok st

/-- Field loop of processLine: strconv.Atoi each token, storing the value
minus one. -/
def parseLineCorners : List Str → Except PErr (List Int)
  | [] => .ok []
  | f :: fs =>
    match goAtoi f with
    | none => .error .badNumber
    | some k =>
      match parseLineCorners fs with
      | .error e => .error e
      | .ok ks => .ok ((k - 1) :: ks)

/-- processLine: at least 2 index tokens, each stored 0-based, tagged with
the active material. -/
def processLine {α : Type} (st : ObjBuffer α) (fields : List Str) :
    Except PErr (ObjBuffer α) :=
  if fields.length < 2 then .error .fieldCount
  else
    match parseLineCorners fields with
    | .error e => .error e
    | .ok ks => .ok { st with L := st.L ++ [⟨ks, st.activeMaterial⟩] }

/-- Submatch of the anchored group regexp: a leading g, optional regexp
whitespace, then a capture that cannot cross a newline. -/
def groupMatch (line : Str) : Option Str :=
  match line with
  | 'g' :: rest =>
    let cap := rest.dropWhile isReSpace
    if cap.contains '\n' then none else some cap
  | _ => none

/-- Submatch of the anchored usemtl and mtllib regexps: the keyword, one or
more regexp whitespace characters, then a capture that cannot cross a
newline. -/
def keywordSpaceMatch (kw : Str) (line : Str) : Option Str :=
  if kw.isPrefixOf line then
    match line.drop kw.length with
    | [] => none
    | c :: cs =>
      if isReSpace c then
        let cap := (c :: cs).dropWhile isReSpace
        if cap.contains '\n' then none else some cap
      else none
  else none

/-- startGroup: open a group at the current face index with the -1
placeholder count. -/
def startGroup {α : Type} (st : ObjBuffer α) (name : Str) : ObjBuffer α :=
  { st with G := st.G ++ [⟨name, (st.F.length : Int), -1⟩] }

/-- endGroup: close the last group with its face count, discard it when the
count is zero, or, with no group open, append the synthetic default group
spanning all faces parsed so far. -/
def endGroup {α : Type} (st : ObjBuffer α) : ObjBuffer α :=
  if st.G.length > 0 then
    let g := st.G.getLast?.getD ⟨[], 0, 0⟩
    let count : Int := (st.F.length : Int) - g.FirstFaceIndex
    if count > 0 then
      { st with G := st.G.dropLast ++ [{ g with FaceCount := count }] }
    else
      { st with G := st.G.dropLast }
  else
    { st with G := st.G ++ [⟨"default group".data, 0, (st.F.length : Int)⟩] }

/-- processGroup: close the open group and start the captured one. -/
def processGroup {α : Type} (st : ObjBuffer α) (line : Str) :
    Except PErr (ObjBuffer α) :=
  match groupMatch line with
  | some name => .ok (startGroup (endGroup st) name)
  | none => .error .badGroupLine

/-- processMaterialLibrary: record the mtllib capture, fatal if already set. -/
def processMaterialLibrary {α : Type} (st : ObjBuffer α) (line : Str) :
    Except PErr (ObjBuffer α) :=
  if st.MTL ≠ [] then .error .mtlAlreadySet
  else
    match keywordSpaceMatch "mtllib".data line with
    | some cap => .ok { st with MTL := cap }
    | none => .error .badMtllibLine

/-- processUseMaterial: record the usemtl capture as the active material. -/
def processUseMaterial {α : Type} (st : ObjBuffer α) (line : Str) :
    Except PErr (ObjBuffer α) :=
  match keywordSpaceMatch "usemtl".data line with
  | some cap => .ok { st with activeMaterial := cap }
  | none => .error .badUsemtlLine

/-- The FaceGroup bookkeeping run by the usemtl branch of the Read switch:
close the size of the last material range and open a new one. -/
def usemtlFaceGroupUpdate {α : Type} (st : ObjBuffer α) : ObjBuffer α :=
  let fsz : Int := (st.F.length : Int)
  let st1 :=
    if st.FaceGroup.length > 0 then
      let fg := st.FaceGroup.getLast?.getD ⟨0, 0⟩
      { st with
        FaceGroup := st.FaceGroup.dropLast ++ [{ fg with Size := fsz - fg.Offset }] }
    else st
  { st1 with FaceGroup := st1.FaceGroup ++ [⟨fsz, 0⟩] }

/-- One iteration of the scanner loop of ObjReader.Read: trim, strip the
comment, skip blank lines, split into fields and dispatch on the
lower-cased keyword. -/
def processOneLine (M : FloatModel) (opts : ReadOptions) (st : ObjBuffer M.Flt)
    (raw : Str) : Except PErr (ObjBuffer M.Flt) :=
  let line := commentStrip (goTrimSpace raw)
  if line.isEmpty then .ok st
  else
    match goFields line with
    | [] => .ok st
    | kw :: rest =>
      let k := goToLower kw
      if k = "vt".data then processVertexTexCoord M.parse st rest
      else if k = "v".data then processVertex M.parse st rest
      else if k = "vn".data then processVertexNormal M.parse st rest
      else if k = "f".data then processFace opts st rest
      else if k = "l".data then processLine st rest
      else if k = "g".data then processGroup st line
      else if k = "mtllib".data then processMaterialLibrary st line
      else if k = "usemtl".data then processUseMaterial (usemtlFaceGroupUpdate st) line
      else if k = "o".data ∨ k = "s".data ∨ k = "vp".data then .ok st
      else .error .unknownKeyword

/-- The scanner loop of ObjReader.Read with its 1-based line counter. -/
def readLinesAux (M : FloatModel) (opts : ReadOptions) :
    List Str → Nat → ObjBuffer M.Flt → Except LineErr (ObjBuffer M.Flt)
  | [], _, st => .ok st
  | raw :: rest, i, st =>
    match processOneLine M opts st raw with
    | .ok st1 => readLinesAux M opts rest (i + 1) st1
    | .error e => .error ⟨i + 1, commentStrip (goTrimSpace raw), e⟩

/-- The FaceGroup epilogue of ObjReader.Read. -/
def finishFaceGroups {α : Type} (st : ObjBuffer α) : ObjBuffer α :=
  if st.FaceGroup.length > 0 then
    let fg := st.FaceGroup.getLast?.getD ⟨0, 0⟩
    { st with
      FaceGroup := st.FaceGroup.dropLast ++ [{ fg with Size := (st.F.length : Int) - fg.Offset }] }
  else
    { st with FaceGroup := [⟨0, (st.F.length : Int)⟩] }

/-- ObjReader.Read on an already line-split input: run every line through
the dispatcher, then close the open group and the FaceGroup ranges. -/
def Read (M : FloatModel) (opts : ReadOptions) (lines : List Str) :
    Except LineErr (ObjBuffer M.Flt) :=
  match readLinesAux M opts lines 0 {} with
  | .error e => .error e
  | .ok st => .ok (finishFaceGroups (endGroup st))

/-- A concrete scalar model with a single value, printed as the token 0;
used to instantiate theorems whose content does not depend on scalars. -/
def unitModel : FloatModel where
  Flt := Unit
  parse s := if s = "0".data then some () else none
  fmt _ := "0".data

/-! ## Group extraction (group.go) -/

/-- Go slice read with an int index; none models the index-out-of-range
panic. -/
def listGetI {β : Type} (l : List β) (i : Int) : Option β :=
  if h : 0 ≤ i ∧ i.toNat < l.length then some (l.get ⟨i.toNat, h.2⟩) else none

/-- Go slice write with an int index; none models the index-out-of-range
panic. -/
def listSetI {β : Type} (l : List β) (i : Int) (x : β) : Option (List β) :=
  if 0 ≤ i ∧ i.toNat < l.length then some (l.set i.toNat x) else none

/-- The result of make plus FillIntSlice: a slice of the given length
filled with one value. -/
def fillIntSlice (n : Nat) (val : Int) : List Int := List.replicate n val

/-- The face range visited by the extraction loop, i from FirstFaceIndex
while i lt FirstFaceIndex + FaceCount; none models the panic raised when
the loop would index outside the parent face list. -/
def sliceFaces (fs : List Face) (first count : Int) : Option (List Face) :=
  if count ≤ 0 then some []
  else if 0 ≤ first ∧ first + count ≤ (fs.length : Int) then
    some ((fs.drop first.toNat).take count.toNat)
  else none

/-- The mutable state threaded through the buildBuffers loops: the parent
buffer (never written by the source, carried to state that fact), the
buffer under construction and the two index-translation slices. -/
structure BuildState (α : Type) where
  parent : ObjBuffer α
  buffer : ObjBuffer α
  vertexMapping : List Int
  normalMapping : List Int

/-- One lookup-or-insert on an index mapping, shared by the vertex and
normal halves of the corner body of buildBuffers: read the mapping slot;
if it is -1, assign the next new index, append the source element to the
compacted array and record the assignment. -/
def mapLookupInsert {β : Type} (mapping : List Int) (src arr : List β) (idx : Int) :
    Option (List Int × List β × Int) :=
  match listGetI mapping idx with
  | none => none
  | some m =>
    if m = -1 then
      match listGetI src idx, listSetI mapping idx (arr.length : Int) with
      | some v, some mp => some (mp, arr ++ [v], (arr.length : Int))
      | _, _ => none
    else some (mapping, arr, m)

/-- The corner body of the buildBuffers loop: translate the vertex and
normal indices; the copied corner carries the translated indices and the
zero value of the Go faceCorner struct in the texture-coordinate slot. -/
def buildCornerStep {α : Type} (s : BuildState α) (c : FaceCorner) :
    Option (BuildState α × FaceCorner) :=
  match mapLookupInsert s.vertexMapping s.parent.V s.buffer.V c.VertexIndex with
  | none => none
  | some (vm, bV, newV) =>
    match mapLookupInsert s.normalMapping s.parent.VN s.buffer.VN c.NormalIndex with
    | none => none
    | some (nm, bVN, newN) =>
      some ({ s with
                vertexMapping := vm
                normalMapping := nm
                buffer := { s.buffer with V := bV, VN := bVN } },
        ⟨newV, newN, 0⟩)

/-- The corner loop of buildBuffers over one face. -/
def buildFaceCorners {α : Type} : BuildState α → List FaceCorner →
    Option (BuildState α × List FaceCorner)
  | s, [] => some (s, [])
  | s, c :: cs =>
    match buildCornerStep s c with
    | none => none
    | some (s1, c1) =>
      match buildFaceCorners s1 cs with
      | none => none
      | some (s2, cs1) => some (s2, c1 :: cs1)

/-- The face loop of buildBuffers: copy each in-range face with translated
corners and the verbatim material string. -/
def buildFacesLoop {α : Type} : BuildState α → List Face → Option (BuildState α)
  | s, [] => some s
  | s, f :: fs =>
    match buildFaceCorners s f.Corners with
    | none => none
    | some (s1, cs1) =>
      buildFacesLoop
        { s1 with buffer := { s1.buffer with F := s1.buffer.F ++ [⟨cs1, f.Material⟩] } } fs

/-- Group.buildBuffers, returning the final parent alongside the new
buffer so that the absence of writes to the parent is a stated fact
rather than a modelling artifact; none models the panics of the Go code
(out-of-range face range or corner indices). -/
def buildBuffersRun {α : Type} (g : Group) (parentBuffer : ObjBuffer α) :
    Option (ObjBuffer α × ObjBuffer α) :=
  let s0 : BuildState α :=
    { parent := parentBuffer
      buffer := { MTL := parentBuffer.MTL, G := [⟨g.Name, 0, g.FaceCount⟩] }
      vertexMapping := fillIntSlice parentBuffer.V.length (-1)
      normalMapping := fillIntSlice parentBuffer.VN.length (-1) }
  match sliceFaces parentBuffer.F g.FirstFaceIndex g.FaceCount with
  | none => none
  | some fs =>
    match buildFacesLoop s0 fs with
    | none => none
    | some s => some (s.parent, s.buffer)

/-- Group.buildBuffers as seen by callers: just the new buffer. -/
def buildBuffers {α : Type} (g : Group) (parentBuffer : ObjBuffer α) :
    Option (ObjBuffer α) :=
  (buildBuffersRun g parentBuffer).map (fun p => p.2)

/-- Specification-side accumulator: append an index the first time it is
seen, keep the list unchanged otherwise. -/
def seenStep (seen : List Int) (x : Int) : List Int :=
  if x ∈ seen then seen else seen ++ [x]

/-- Specification-side first-encounter dedup: fold seenStep over a
reference stream. -/
def seenFold (seen : List Int) (l : List Int) : List Int := l.foldl seenStep seen

/-- The stream of vertex indices referenced by a face list, in scan
order. -/
def faceVertexRefs (fs : List Face) : List Int :=
  (fs.map (fun f => f.Corners.map (fun c => c.VertexIndex))).flatten

/-- The stream of normal indices referenced by a face list, in scan
order. -/
def faceNormalRefs (fs : List Face) : List Int :=
  (fs.map (fun f => f.Corners.map (fun c => c.NormalIndex))).flatten

/-- The faces of the range that the extraction loop visits when the range
lies inside the parent face list. -/
def rangeFaces {α : Type} (b : ObjBuffer α) (g : Group) : List Face :=
  (b.F.drop g.FirstFaceIndex.toNat).take g.FaceCount.toNat

/-- The mapping-slice invariant of the extraction loops: the slice has one
slot per source element, holding -1 for indices not yet seen and the
first-encounter position for seen ones. -/
def mapInv {β : Type} (src : List β) (mapping : List Int) (seen : List Int) : Prop :=
  mapping.length = src.length ∧
  (∀ x ∈ seen, 0 ≤ x ∧ x.toNat < src.length) ∧
  seen.Nodup ∧
  ∀ i, ∀ hi : i < mapping.length,
    mapping.get ⟨i, hi⟩ = if (i : Int) ∈ seen then (seen.indexOf (i : Int) : Int) else -1

/-- The full loop invariant of buildBuffers relative to the parent buffer
and the two first-encounter lists. -/
def buildInv {α : Type} (b : ObjBuffer α) (s : BuildState α)
    (seenV seenN : List Int) : Prop :=
  s.parent = b ∧
  mapInv b.V s.vertexMapping seenV ∧
  mapInv b.VN s.normalMapping seenN ∧
  s.buffer.V.map some = seenV.map (fun i => b.V.get? i.toNat) ∧
  s.buffer.VN.map some = seenN.map (fun i => b.VN.get? i.toNat)

/-! ## Triangulator (the face Triangulate method and pnpoly) -/

/-- The float32 operations used by the triangulator, abstracted: the
termination and control-flow properties proved about Triangulate hold for
every interpretation of the arithmetic, so float32 rounding never has to
be modelled. The epsilon field stands for the literal 1.19209290e-07 and
half for the literal 0.5. -/
structure TriArith (α : Type) where
  add : α → α → α
  sub : α → α → α
  mul : α → α → α
  div : α → α → α
  absF : α → α
  ltF : α → α → Bool
  gtF : α → α → Bool
  zero : α
  half : α
  epsilon : α

/-- Component access of a three-vector by axis number. -/
def v3get {α : Type} (v : Vec3 α) : Nat → α
  | 0 => v.1
  | 1 => v.2.1
  | _ => v.2.2

/-- The default corner used for the always-in-bounds modulo reads of the
triangulator (the Go code indexes with k mod npolys, which never leaves
the slice). -/
def dummyCorner : FaceCorner := ⟨-1, -1, -1⟩

/-- The crossing-number loop of pnpoly, iterating i over the vertices
with j trailing one behind. -/
def pnpolyAux {α : Type} (A : TriArith α) (vertx verty : List α) (testx testy : α) :
    Nat → Nat → Nat → Bool → Bool
  | 0, _, _, c => c
  | fuel + 1, i, j, c =>
    let vyi := verty.getD i A.zero
    let vyj := verty.getD j A.zero
    let vxi := vertx.getD i A.zero
    let vxj := vertx.getD j A.zero
    let cond := (A.gtF vyi testy ≠ A.gtF vyj testy) &&
      A.ltF testx
        (A.add (A.div (A.mul (A.sub vxj vxi) (A.sub testy vyi)) (A.sub vyj vyi)) vxi)
    pnpolyAux A vertx verty testx testy fuel (i + 1) i (if cond then !c else c)

/-- pnpoly: ray-casting point-in-polygon over projected 2D coordinates. -/
def pnpoly {α : Type} (A : TriArith α) (nvert : Nat) (vertx verty : List α)
    (testx testy : α) : Bool :=
  pnpolyAux A vertx verty testx testy nvert 0 (nvert - 1) false

/-- The axis-selection loop of Triangulate: scan consecutive edges until a
cross-product component exceeds epsilon, picking the projection axes, or
fall through with the initial axes 1 and 2; none models the panic on a
negative vertex index reaching the position-array read. -/
def triAxesLoop {α : Type} (A : TriArith α) (V : List (Vec3 α))
    (faces : List FaceCorner) (npolys : Nat) : Nat → Nat → Option (Nat × Nat)
  | 0, _ => some (1, 2)
  | fuel + 1, k =>
    let i0 := faces.getD (k % npolys) dummyCorner
    let i1 := faces.getD ((k + 1) % npolys) dummyCorner
    let i2 := faces.getD ((k + 2) % npolys) dummyCorner
    if i0.VertexIndex ≥ (V.length : Int) ∨ i1.VertexIndex ≥ (V.length : Int) ∨
        i2.VertexIndex ≥ (V.length : Int) then
      triAxesLoop A V faces npolys fuel (k + 1)
    else
      match listGetI V i0.VertexIndex, listGetI V i1.VertexIndex,
          listGetI V i2.VertexIndex with
      | some v0, some v1, some v2 =>
        let e0x := A.sub (v3get v1 0) (v3get v0 0)
        let e0y := A.sub (v3get v1 1) (v3get v0 1)
        let e0z := A.sub (v3get v1 2) (v3get v0 2)
        let e1x := A.sub (v3get v2 0) (v3get v1 0)
        let e1y := A.sub (v3get v2 1) (v3get v1 1)
        let e1z := A.sub (v3get v2 2) (v3get v1 2)
        let cx := A.absF (A.sub (A.mul e0y e1z) (A.mul e0z e1y))
        let cy := A.absF (A.sub (A.mul e0z e1x) (A.mul e0x e1z))
        let cz := A.absF (A.sub (A.mul e0x e1y) (A.mul e0y e1x))
        if A.gtF cx A.epsilon || A.gtF cy A.epsilon || A.gtF cz A.epsilon then
          some (if A.gtF cx cy && A.gtF cx cz then (1, 2)
            else if A.gtF cz cx && A.gtF cz cy then (0, 1)
            else (0, 2))
        else triAxesLoop A V faces npolys fuel (k + 1)
      | _, _, _ => none

/-- The shoelace loop of Triangulate computing the projected signed area;
its guard mixes a vertex index with an axis offset before the length
comparison, exactly as in the source, skipping a contribution whenever the
sum reaches the array length. -/
def triAreaLoop {α : Type} (A : TriArith α) (V : List (Vec3 α))
    (faces : List FaceCorner) (npolys a0 a1 : Nat) : Nat → Nat → α → Option α
  | 0, _, area => some area
  | fuel + 1, k, area =>
    let ii0 := faces.getD (k % npolys) dummyCorner
    let ii1 := faces.getD ((k + 1) % npolys) dummyCorner
    let vi0 := ii0.VertexIndex
    let vi1 := ii1.VertexIndex
    if vi0 + (a0 : Int) ≥ (V.length : Int) ∨ vi0 + (a1 : Int) ≥ (V.length : Int) ∨
        vi1 + (a0 : Int) ≥ (V.length : Int) ∨ vi1 + (a1 : Int) ≥ (V.length : Int) then
      triAreaLoop A V faces npolys a0 a1 fuel (k + 1) area
    else
      match listGetI V vi0, listGetI V vi1 with
      | some v0, some v1 =>
        triAreaLoop A V faces npolys a0 a1 fuel (k + 1)
          (A.add area (A.mul (A.sub (A.mul (v3get v0 a0) (v3get v1 a1))
            (A.mul (v3get v0 a1) (v3get v1 a0))) A.half))
      | _, _ => none

/-- The guarded 2D read of the ear test: coordinates are zeroed when the
index-plus-axis guard fires, read otherwise; none models the panic on a
negative vertex index. -/
def triVxy {α : Type} (A : TriArith α) (V : List (Vec3 α)) (a0 a1 : Nat)
    (vi : Int) : Option (α × α) :=
  if vi + (a0 : Int) ≥ (V.length : Int) ∨ vi + (a1 : Int) ≥ (V.length : Int) then
    some (A.zero, A.zero)
  else
    match listGetI V vi with
    | some v => some (v3get v a0, v3get v a1)
    | none => none

/-- The other-corner overlap scan of the ear test, from otherVert = 3 to
npolys - 1. -/
def triOverlapLoop {α : Type} (A : TriArith α) (V : List (Vec3 α)) (a0 a1 : Nat)
    (rem : List FaceCorner) (npolys guess : Nat) (vx0 vx1 vx2 vy0 vy1 vy2 : α) :
    Nat → Nat → Option Bool
  | 0, _ => some false
  | fuel + 1, otherVert =>
    let idx := (guess + otherVert) % npolys
    if idx ≥ rem.length then
      triOverlapLoop A V a0 a1 rem npolys guess vx0 vx1 vx2 vy0 vy1 vy2 fuel
        (otherVert + 1)
    else
      let ovi := (rem.getD idx dummyCorner).VertexIndex
      if ovi + (a0 : Int) ≥ (V.length : Int) ∨ ovi + (a1 : Int) ≥ (V.length : Int) then
        triOverlapLoop A V a0 a1 rem npolys guess vx0 vx1 vx2 vy0 vy1 vy2 fuel
          (otherVert + 1)
      else
        match listGetI V ovi with
        | none => none
        | some v =>
          if pnpoly A 3 [vx0, vx1, vx2] [vy0, vy1, vy2] (v3get v a0) (v3get v a1) then
            some true
          else
            triOverlapLoop A V a0 a1 rem npolys guess vx0 vx1 vx2 vy0 vy1 vy2 fuel
              (otherVert + 1)

/-- Fuel sufficient for the ear-clipping loop from a given state: every
iteration either consumes a sweep of the cap, removes a corner, or
advances the scan start, and this polynomial dominates the lexicographic
count of those events. -/
def triFuel (rem : List FaceCorner) (guess rounds : Nat) : Nat :=
  rounds * (rem.length + 2) * (rem.length + 2) + rem.length * (rem.length + 2) +
    (rem.length - guess) + 1

/-- One iteration of the ear-clipping loop of Triangulate, parametric in
the continuation used for the next iteration: normalize the scan start
(consuming a sweep of the cap when it wraps), read the three candidate
corners, reject the ear on winding or on overlap with another remaining
corner (advancing the scan start), or emit the triangle and remove the
middle corner. -/
def triMainBody {α : Type} (A : TriArith α) (V : List (Vec3 α)) (a0 a1 : Nat)
    (area : α)
    (recur : List FaceCorner → Nat → Nat → List (List FaceCorner) →
      Option (List FaceCorner × List (List FaceCorner)))
    (rem : List FaceCorner) (guess rounds : Nat) (ret : List (List FaceCorner)) :
    Option (List FaceCorner × List (List FaceCorner)) :=
  let npolys := rem.length
  let guess1 := if guess ≥ npolys then guess - npolys else guess
  let rounds1 := if guess ≥ npolys then rounds - 1 else rounds
  let ind0 := rem.getD (guess1 % npolys) dummyCorner
  let ind1 := rem.getD ((guess1 + 1) % npolys) dummyCorner
  let ind2 := rem.getD ((guess1 + 2) % npolys) dummyCorner
  match triVxy A V a0 a1 ind0.VertexIndex, triVxy A V a0 a1 ind1.VertexIndex,
      triVxy A V a0 a1 ind2.VertexIndex with
  | some (vx0, vy0), some (vx1, vy1), some (vx2, vy2) =>
    if A.ltF (A.mul (A.sub (A.mul (A.sub vx1 vx0) (A.sub vy2 vy1))
        (A.mul (A.sub vy1 vy0) (A.sub vx2 vx1))) area) A.zero then
      recur rem (guess1 + 1) rounds1 ret
    else
      match triOverlapLoop A V a0 a1 rem npolys guess1 vx0 vx1 vx2 vy0 vy1 vy2
          (npolys - 3) 3 with
      | none => none
      | some true => recur rem (guess1 + 1) rounds1 ret
      | some false =>
        recur (rem.eraseIdx ((guess1 + 1) % npolys)) guess1 rounds1
          (ret ++ [[ind0, ind1, ind2]])
  | _, _, _ => none

/-- The ear-clipping loop of Triangulate, fuel-indexed so that the
recursion is structural; triMainLoop_fuel_stable proves the fuel bound
tight enough that the value agrees with the unbounded Go loop. -/
def triMainLoop {α : Type} (A : TriArith α) (V : List (Vec3 α)) (a0 a1 : Nat)
    (area : α) : Nat → List FaceCorner → Nat → Nat → List (List FaceCorner) →
    Option (List FaceCorner × List (List FaceCorner))
  | 0, _, _, _, _ => none
  | fuel + 1, rem, guess, rounds, ret =>
    if 3 < rem.length ∧ 0 < rounds then
      triMainBody A V a0 a1 area (triMainLoop A V a0 a1 area fuel) rem guess rounds ret
    else some (rem, ret)

/-- The epilogue of Triangulate: when exactly three corners remain the
final triangle is emitted unconditionally, otherwise the unresolved
remainder is dropped. -/
def triFinish (rem : List FaceCorner) (ret : List (List FaceCorner)) :
    List (List FaceCorner) :=
  if rem.length = 3 then
    ret ++ [[rem.getD 0 dummyCorner, rem.getD 1 dummyCorner, rem.getD 2 dummyCorner]]
  else ret

/-- The face Triangulate method: a 3-corner face is returned unchanged; a
face with fewer than 2 corners panics on the initial reads (none);
otherwise project, compute the signed area, run the capped ear-clipping
loop with maxRounds = 10 and finish. -/
def Triangulate {α : Type} (A : TriArith α) (f : Face) (V : List (Vec3 α)) :
    Option (List (List FaceCorner)) :=
  let npolys := f.Corners.length
  if npolys = 3 then some [f.Corners]
  else if f.Corners.length < 2 then none
  else
    match triAxesLoop A V f.Corners npolys npolys 0 with
    | none => none
    | some (a0, a1) =>
      match triAreaLoop A V f.Corners npolys a0 a1 npolys 0 A.zero with
      | none => none
      | some area =>
        match triMainLoop A V a0 a1 area (triFuel f.Corners 0 10) f.Corners 0 10 [] with
        | none => none
        | some (rem, ret) => some (triFinish rem ret)

/-- A concrete exact arithmetic used to instantiate the triangulator on
integer coordinates (the Go code uses float32; the termination argument is
independent of the arithmetic). -/
def intArith : TriArith Int :=
  { add := (· + ·), sub := (· - ·), mul := (· * ·), div := (· / ·),
    absF := fun a => |a|, ltF := fun a b => decide (a < b),
    gtF := fun a b => decide (a > b), zero := 0, half := 0, epsilon := 1 }

/-! ## The OBJ writer (the Write method appended to reader_test.go),
modelled as the list of lines it prints, and the well-formedness
predicates used by the round-trip theorem -/

def writeCornerTok (c : FaceCorner) : Str :=
  if c.NormalIndex ≠ -1 then
    if c.TexCoordIndex ≠ -1 then
      intToStr (c.VertexIndex + 1) ++ '/' :: intToStr (c.TexCoordIndex + 1) ++
        '/' :: intToStr (c.NormalIndex + 1)
    else
      intToStr (c.VertexIndex + 1) ++ '/' :: '/' :: intToStr (c.NormalIndex + 1)
  else if c.TexCoordIndex ≠ -1 then
    intToStr (c.VertexIndex + 1) ++ '/' :: intToStr (c.TexCoordIndex + 1)
  else intToStr (c.VertexIndex + 1)

def writeFaceLine (f : Face) : Str :=
  'f' :: (f.Corners.map (fun c => ' ' :: writeCornerTok c)).flatten

def writeGroupLines (F : List Face) (g : Group) : Option (List Str) :=
  match sliceFaces F g.FirstFaceIndex g.FaceCount with
  | none => none
  | some fs => some (("g ".data ++ g.Name) :: fs.map writeFaceLine)

def writeGroupsLines (F : List Face) : List Group → Option (List Str)
  | [] => some []
  | g :: gs =>
    match writeGroupLines F g, writeGroupsLines F gs with
    | some l1, some l2 => some (l1 ++ l2)
    | _, _ => none

def writeVec3Line {α : Type} (fm : α → Str) (kw : Str) (v : Vec3 α) : Str :=
  kw ++ ' ' :: (fm v.1 ++ ' ' :: (fm v.2.1 ++ ' ' :: fm v.2.2))

def writeVec2Line {α : Type} (fm : α → Str) (kw : Str) (v : Vec2 α) : Str :=
  kw ++ ' ' :: (fm v.1 ++ ' ' :: fm v.2)

def writeLines (M : FloatModel) (b : ObjBuffer M.Flt) : Option (List Str) :=
  match writeGroupsLines b.F b.G with
  | none => none
  | some gl =>
    some ("# Exported using RenderDB".data ::
      ("# ".data ++ natDigits b.V.length ++ " vertices, ".data ++
        natDigits b.VN.length ++ " normals, ".data ++
        natDigits b.F.length ++ " faces".data) ::
      ((if b.MTL.isEmpty then [] else ["mtllib ".data ++ b.MTL]) ++
        (b.V.map (writeVec3Line M.fmt "v".data) ++
          (b.VN.map (writeVec3Line M.fmt "vn".data) ++
            (b.VT.map (writeVec2Line M.fmt "vt".data) ++ gl)))))

def goodName (s : Str) : Prop :=
  (∀ c ∈ s, c ≠ '#' ∧ c ≠ '\n') ∧
  s.head?.all (fun c => !isReSpace c) = true ∧
  s.getLast?.all (fun c => !isGoSpace c) = true

def wfCorner (lenV lenVN lenVT : Nat) (c : FaceCorner) : Prop :=
  (0 ≤ c.VertexIndex ∧ (0 < lenV → c.VertexIndex < (lenV : Int))) ∧
  (c.NormalIndex = -1 ∨
    (0 ≤ c.NormalIndex ∧ (0 < lenVN → c.NormalIndex < (lenVN : Int)))) ∧
  (c.TexCoordIndex = -1 ∨
    (0 ≤ c.TexCoordIndex ∧ (0 < lenVT → c.TexCoordIndex < (lenVT : Int))))

def wfFace (lenV lenVN lenVT : Nat) (f : Face) : Prop :=
  3 ≤ f.Corners.length ∧ ∀ c ∈ f.Corners, wfCorner lenV lenVN lenVT c

/-! ## Invariant predicates used by the group-tracker theorems -/

/-- The shape of a finished group list: every group has a non-negative
face count and every group except possibly the first has a strictly
positive one (the head may be the synthetic default group, whose count is
the number of faces parsed before it was created). -/
def groupCountsOk (gs : List Group) : Prop :=
  (∀ g ∈ gs, 0 ≤ g.FaceCount) ∧ ∀ g ∈ gs.tail, 0 < g.FaceCount

/-- The shape of the group list between two scanner iterations: either no
group has been opened, or the last group is the open one (placeholder
count -1, first index within the faces parsed so far) in front of a
finished prefix. -/
def gTrackInv (gs : List Group) (nF : Nat) : Prop :=
  gs = [] ∨ ∃ gs0 g, gs = gs0 ++ [g] ∧ groupCountsOk gs0 ∧ g.FaceCount = -1 ∧
    0 ≤ g.FirstFaceIndex ∧ g.FirstFaceIndex ≤ (nF : Int)

/-! ## Basic lemmas about the string and number helpers -/

theorem natDigitsAux_eq {n : Nat} : ∀ {fuel : Nat}, n < fuel →
    natDigitsAux fuel n = natDigits n := by
  induction n using Nat.strong_induction_on with
  | _ n ih =>
    intro fuel h
    match fuel with
    | 0 => omega
    | fuel + 1 =>
      by_cases hn : n < 10
      · simp [natDigitsAux, natDigits, hn]
      · have hlt : n / 10 < n := Nat.div_lt_self (by omega) (by omega)
        have h1 : natDigitsAux fuel (n / 10) = natDigits (n / 10) :=
          ih (n / 10) hlt (by omega)
        have h2 : natDigitsAux n (n / 10) = natDigits (n / 10) :=
          ih (n / 10) hlt hlt
        simp only [natDigitsAux, hn, if_false, h1, natDigits, h2]

theorem natDigits_unfold (n : Nat) :
    natDigits n =
      if n < 10 then [digitChar n]
      else natDigits (n / 10) ++ [digitChar (n % 10)] := by
  by_cases hn : n < 10
  · simp [natDigits, natDigitsAux, hn]
  · have hlt : n / 10 < n := Nat.div_lt_self (by omega) (by omega)
    simp only [natDigits, natDigitsAux, hn, if_false]
    rw [natDigitsAux_eq hlt]
    rfl

theorem digitChar_isDigit {n : Nat} (h : n < 10) : (digitChar n).isDigit = true := by
  interval_cases n <;> decide

theorem digitVal_digitChar {n : Nat} (h : n < 10) : digitVal (digitChar n) = n := by
  interval_cases n <;> decide

theorem natDigits_ne_nil (n : Nat) : natDigits n ≠ [] := by
  rw [natDigits_unfold]
  by_cases h : n < 10 <;> simp [h]

theorem natDigits_allDigits (n : Nat) : allDigits (natDigits n) = true := by
  induction n using Nat.strong_induction_on with
  | _ n ih =>
    rw [natDigits_unfold]
    by_cases h : n < 10
    · simp [h, allDigits, digitChar_isDigit h]
    · have hlt : n / 10 < n := Nat.div_lt_self (by omega) (by omega)
      have h1 := ih (n / 10) hlt
      have h2 : (digitChar (n % 10)).isDigit = true :=
        digitChar_isDigit (Nat.mod_lt n (by omega))
      simp only [allDigits] at h1 ⊢
      simp [h, h1, h2]

theorem digitsVal_natDigits (n : Nat) : digitsVal (natDigits n) = n := by
  induction n using Nat.strong_induction_on with
  | _ n ih =>
    rw [natDigits_unfold]
    by_cases h : n < 10
    · simp only [h, if_true, digitsVal, List.foldl]
      rw [digitVal_digitChar h]
      omega
    · have hlt : n / 10 < n := Nat.div_lt_self (by omega) (by omega)
      have h1 := ih (n / 10) hlt
      simp only [h, if_false, digitsVal, List.foldl_append, List.foldl]
      simp only [digitsVal] at h1
      rw [h1, digitVal_digitChar (Nat.mod_lt n (by omega))]
      omega

theorem matchNat_natDigits (n : Nat) : matchNat (natDigits n) = some n := by
  simp [matchNat, natDigits_ne_nil n, natDigits_allDigits n, digitsVal_natDigits n,
    List.isEmpty_iff]

theorem natDigits_mem_isDigit (n : Nat) :
    ∀ c ∈ natDigits n, c.isDigit = true := by
  have h := natDigits_allDigits n
  simp only [allDigits, List.all_eq_true] at h
  exact h

theorem isDigit_ne_minus {c : Char} (h : c.isDigit = true) : c ≠ '-' := by
  intro hc; subst hc; exact absurd h (by decide)

theorem isDigit_ne_plus {c : Char} (h : c.isDigit = true) : c ≠ '+' := by
  intro hc; subst hc; exact absurd h (by decide)

theorem natDigits_head?_ne (n : Nat) (d : Char) (hd : d.isDigit = false) :
    (natDigits n).head? ≠ some d := by
  intro h
  obtain ⟨c, cs, hEq⟩ := List.exists_cons_of_ne_nil (natDigits_ne_nil n)
  rw [hEq] at h
  have hc : c.isDigit = true := by
    apply natDigits_mem_isDigit n
    rw [hEq]; exact List.mem_cons_self _ _
  simp at h
  rw [h] at hc
  rw [hc] at hd
  exact absurd hd (by simp)

theorem matchInt_intToStr (i : Int) : matchInt (intToStr i) = some i := by
  by_cases h : i < 0
  · simp [intToStr, h, matchInt, matchNat_natDigits, abs_of_neg h]
  · simp only [intToStr, if_neg h, matchInt]
    rw [if_neg (natDigits_head?_ne _ '-' (by decide)), matchNat_natDigits]
    simp
    omega

theorem goAtoi_intToStr (i : Int) : goAtoi (intToStr i) = some i := by
  by_cases h : i < 0
  · simp [intToStr, h, goAtoi, matchNat_natDigits, abs_of_neg h]
  · simp only [intToStr, if_neg h, goAtoi]
    rw [if_neg (natDigits_head?_ne _ '+' (by decide)),
      if_neg (natDigits_head?_ne _ '-' (by decide)), matchNat_natDigits]
    simp
    omega

/-! ## Lemmas about the face-corner resolver -/

theorem resolveVertexIdx_ok {lenV : Nat} {k v : Int}
    (h : resolveVertexIdx lenV k = .ok v) :
    v = if k > 0 then k - 1 else (lenV : Int) + k := by
  unfold resolveVertexIdx at h
  split_ifs at h <;> simp_all <;> omega

theorem resolveNormalIdx_ok {lenVN : Nat} {k n : Int}
    (h : resolveNormalIdx lenVN k = .ok n) :
    n = if k > 0 then k - 1 else if k = -1 then -1 else (lenVN : Int) + k := by
  unfold resolveNormalIdx at h
  split_ifs at h <;> simp_all <;> omega

theorem resolveTexCoordIdx_ok {lenVT : Nat} {k t : Int}
    (h : resolveTexCoordIdx lenVT k = .ok t) :
    t = if k > 0 then k - 1 else if k = -1 then -1 else (lenVT : Int) + k := by
  unfold resolveTexCoordIdx at h
  split_ifs at h <;> simp_all <;> omega

theorem validateCorner_ok_iff (lenV lenVN lenVT : Nat) (v n t : Int) :
    validateCorner lenV lenVN lenVT v n t = .ok ⟨v, n, t⟩ ↔
      ((lenV > 0 → 0 ≤ v ∧ v < (lenV : Int)) ∧
       (lenVN > 0 → 0 ≤ n → n < (lenVN : Int)) ∧
       (lenVT > 0 → 0 ≤ t → t < (lenVT : Int))) := by
  unfold validateCorner
  by_cases h1 : lenV > 0 ∧ (v < 0 ∨ v ≥ (lenV : Int))
  · rw [if_pos h1]
    constructor
    · intro hc
      exact absurd hc (by simp)
    · intro hr
      exfalso
      omega
  · rw [if_neg h1]
    by_cases h2 : lenVN > 0 ∧ n ≥ 0 ∧ n ≥ (lenVN : Int)
    · rw [if_pos h2]
      constructor
      · intro hc
        exact absurd hc (by simp)
      · intro hr
        exfalso
        omega
    · rw [if_neg h2]
      by_cases h3 : lenVT > 0 ∧ t ≥ 0 ∧ t ≥ (lenVT : Int)
      · rw [if_pos h3]
        constructor
        · intro hc
          exact absurd hc (by simp)
        · intro hr
          exfalso
          omega
      · rw [if_neg h3]
        constructor
        · intro _
          refine ⟨?_, ?_, ?_⟩ <;> (intros; omega)
        · intro _
          rfl

theorem resolveCorner_ok_split {lenV lenVN lenVT : Nat} {c0 c : FaceCorner}
    (h : resolveCorner lenV lenVN lenVT c0 = .ok c) :
    resolveVertexIdx lenV c0.VertexIndex = .ok c.VertexIndex ∧
    resolveNormalIdx lenVN c0.NormalIndex = .ok c.NormalIndex ∧
    resolveTexCoordIdx lenVT c0.TexCoordIndex = .ok c.TexCoordIndex ∧
    validateCorner lenV lenVN lenVT c.VertexIndex c.NormalIndex c.TexCoordIndex = .ok c := by
  unfold resolveCorner at h
  cases hv : resolveVertexIdx lenV c0.VertexIndex with
  | error e => simp only [hv] at h; exact absurd h (by simp)
  | ok v =>
    simp only [hv] at h
    cases hn : resolveNormalIdx lenVN c0.NormalIndex with
    | error e => simp only [hn] at h; exact absurd h (by simp)
    | ok n =>
      simp only [hn] at h
      cases ht : resolveTexCoordIdx lenVT c0.TexCoordIndex with
      | error e => simp only [ht] at h; exact absurd h (by simp)
      | ok t =>
        simp only [ht] at h
        have hc : c = ⟨v, n, t⟩ := by
          unfold validateCorner at h
          split_ifs at h
          simp_all
        subst hc
        exact ⟨rfl, rfl, rfl, h⟩

theorem resolveCorner_bounds {lenV lenVN lenVT : Nat} {c0 c : FaceCorner}
    (h : resolveCorner lenV lenVN lenVT c0 = .ok c) :
    (lenV > 0 → 0 ≤ c.VertexIndex ∧ c.VertexIndex < (lenV : Int)) ∧
    (lenVN > 0 → 0 ≤ c.NormalIndex → c.NormalIndex < (lenVN : Int)) ∧
    (lenVT > 0 → 0 ≤ c.TexCoordIndex → c.TexCoordIndex < (lenVT : Int)) := by
  have hs := (resolveCorner_ok_split h).2.2.2
  exact (validateCorner_ok_iff lenV lenVN lenVT _ _ _).mp hs

theorem buildCorners_bounds {lenV lenVN lenVT : Nat} {fs : List Str}
    {cs : List FaceCorner} (h : buildCorners lenV lenVN lenVT fs = .ok cs) :
    ∀ c ∈ cs,
      (lenV > 0 → 0 ≤ c.VertexIndex ∧ c.VertexIndex < (lenV : Int)) ∧
      (lenVN > 0 → 0 ≤ c.NormalIndex → c.NormalIndex < (lenVN : Int)) ∧
      (lenVT > 0 → 0 ≤ c.TexCoordIndex → c.TexCoordIndex < (lenVT : Int)) := by
  induction fs generalizing cs with
  | nil =>
    unfold buildCorners at h
    simp at h
    subst h
    intro c hc
    simp at hc
  | cons f fs ih =>
    unfold buildCorners at h
    cases hp : parseFaceField f with
    | error e => simp only [hp] at h; exact absurd h (by simp)
    | ok c0 =>
      simp only [hp] at h
      cases hr : resolveCorner lenV lenVN lenVT c0 with
      | error e => simp only [hr] at h; exact absurd h (by simp)
      | ok c1 =>
        simp only [hr] at h
        cases hb : buildCorners lenV lenVN lenVT fs with
        | error e => simp only [hb] at h; exact absurd h (by simp)
        | ok cs1 =>
          simp only [hb] at h
          simp at h
          subst h
          intro c hc
          rcases List.mem_cons.mp hc with hc | hc
          · subst hc; exact resolveCorner_bounds hr
          · exact ih hb c hc

theorem parseLineCorners_spec {fs : List Str} {ks : List Int}
    (h : parseLineCorners fs = .ok ks) :
    ks = fs.map (fun f => (goAtoi f).getD 0 - 1) ∧ ∀ f ∈ fs, (goAtoi f).isSome := by
  induction fs generalizing ks with
  | nil =>
    unfold parseLineCorners at h
    simp at h
    subst h
    simp
  | cons f fs ih =>
    unfold parseLineCorners at h
    cases hA : goAtoi f with
    | none => simp only [hA] at h; exact absurd h (by simp)
    | some k =>
      simp only [hA] at h
      cases hR : parseLineCorners fs with
      | error e => simp only [hR] at h; exact absurd h (by simp)
      | ok ks1 =>
        simp only [hR] at h
        simp at h
        subst h
        obtain ⟨h1, h2⟩ := ih hR
        refine ⟨by simp [h1, hA], ?_⟩
        intro g hg
        rcases List.mem_cons.mp hg with hg | hg
        · subst hg; simp [hA]
        · exact h2 g hg

/-! ## Lemmas about the group tracker -/

theorem groupCountsOk_nil : groupCountsOk [] := by
  constructor <;> (intro g hg; simp at hg)

theorem groupCountsOk_concat {gs : List Group} {g : Group} (hgs : groupCountsOk gs)
    (hg : 0 < g.FaceCount) : groupCountsOk (gs ++ [g]) := by
  constructor
  · intro x hx
    rcases List.mem_append.mp hx with hx | hx
    · exact hgs.1 x hx
    · simp at hx; subst hx; omega
  · intro x hx
    cases gs with
    | nil =>
      simp at hx
    | cons a l =>
      have : ((a :: l) ++ [g]).tail = l ++ [g] := rfl
      rw [this] at hx
      rcases List.mem_append.mp hx with hx | hx
      · exact hgs.2 x (by simpa using hx)
      · simp at hx; subst hx; exact hg

theorem gTrackInv_mono {gs : List Group} {n m : Nat} (h : gTrackInv gs n)
    (hnm : n ≤ m) : gTrackInv gs m := by
  rcases h with h | ⟨gs0, g, hEq, hok, hcnt, hge, hle⟩
  · exact Or.inl h
  · exact Or.inr ⟨gs0, g, hEq, hok, hcnt, hge, by omega⟩

theorem endGroup_groupCountsOk {α : Type} {st : ObjBuffer α}
    (hinv : gTrackInv st.G st.F.length) :
    groupCountsOk (endGroup st).G ∧ (endGroup st).F = st.F := by
  unfold endGroup
  rcases hinv with hnil | ⟨gs0, g, hEq, hok, hcnt, hge, hle⟩
  · rw [hnil]
    refine ⟨?_, by simp⟩
    simp only [List.length_nil, gt_iff_lt, Nat.lt_irrefl, if_false]
    constructor
    · intro x hx
      simp at hx
      subst hx
      simp
    · intro x hx
      simp at hx
  · rw [hEq]
    have hlen : (gs0 ++ [g]).length > 0 := by simp
    rw [if_pos hlen]
    have hlast : (gs0 ++ [g]).getLast?.getD ⟨[], 0, 0⟩ = g := by
      rw [List.getLast?_concat]
      rfl
    have hdrop : (gs0 ++ [g]).dropLast = gs0 := by
      rw [List.dropLast_concat]
    rw [hlast, hdrop]
    by_cases hc : (st.F.length : Int) - g.FirstFaceIndex > 0
    · rw [if_pos hc]
      exact ⟨groupCountsOk_concat hok (by simpa using hc), by simp⟩
    · rw [if_neg hc]
      exact ⟨hok, by simp⟩

theorem startGroup_gTrackInv {α : Type} {st : ObjBuffer α}
    (hok : groupCountsOk st.G) (name : Str) :
    gTrackInv (startGroup st name).G (startGroup st name).F.length := by
  right
  refine ⟨st.G, ⟨name, (st.F.length : Int), -1⟩, rfl, hok, rfl, by simp, ?_⟩
  simp [startGroup]

theorem processGroup_ok {α : Type} {st st' : ObjBuffer α} {line : Str}
    (h : processGroup st line = .ok st') :
    ∃ name, st' = startGroup (endGroup st) name := by
  unfold processGroup at h
  cases hm : groupMatch line with
  | none => simp only [hm] at h; exact absurd h (by simp)
  | some name =>
    simp only [hm] at h
    simp at h
    exact ⟨name, h.symm⟩

theorem processVertex_GF {α : Type} {parse : Str → Option α} {st st' : ObjBuffer α}
    {fields : List Str} (h : processVertex parse st fields = .ok st') :
    st'.G = st.G ∧ st'.F = st.F := by
  unfold processVertex at h
  split at h
  · exact absurd h (by simp)
  · split at h
    · simp at h
      subst h
      exact ⟨rfl, rfl⟩
    · exact absurd h (by simp)

theorem processVertexTexCoord_GF {α : Type} {parse : Str → Option α}
    {st st' : ObjBuffer α} {fields : List Str}
    (h : processVertexTexCoord parse st fields = .ok st') :
    st'.G = st.G ∧ st'.F = st.F := by
  unfold processVertexTexCoord at h
  split at h
  · exact absurd h (by simp)
  · split at h
    · simp at h
      subst h
      exact ⟨rfl, rfl⟩
    · exact absurd h (by simp)

theorem processVertexNormal_GF {α : Type} {parse : Str → Option α}
    {st st' : ObjBuffer α} {fields : List Str}
    (h : processVertexNormal parse st fields = .ok st') :
    st'.G = st.G ∧ st'.F = st.F := by
  unfold processVertexNormal at h
  split at h
  · exact absurd h (by simp)
  · split at h
    · simp at h
      subst h
      exact ⟨rfl, rfl⟩
    · exact absurd h (by simp)

theorem processFace_GF {α : Type} {opts : ReadOptions} {st st' : ObjBuffer α}
    {fields : List Str} (h : processFace opts st fields = .ok st') :
    st'.G = st.G ∧ (st'.F = st.F ∨ ∃ f, st'.F = st.F ++ [f]) := by
  unfold processFace at h
  split at h
  · exact absurd h (by simp)
  · split at h
    · exact absurd h (by simp)
    · split at h
      · simp at h
        subst h
        exact ⟨rfl, Or.inr ⟨_, rfl⟩⟩
      · simp at h
        subst h
        exact ⟨rfl, Or.inl rfl⟩

set_option maxHeartbeats 1000000

theorem processLine_GF {α : Type} {st st' : ObjBuffer α} {fields : List Str}
    (h : processLine st fields = .ok st') : st'.G = st.G ∧ st'.F = st.F := by
  unfold processLine at h
  split at h
  · exact absurd h (by simp)
  · split at h
    · exact absurd h (by simp)
    · simp at h
      subst h
      exact ⟨rfl, rfl⟩

theorem processMaterialLibrary_GF {α : Type} {st st' : ObjBuffer α} {line : Str}
    (h : processMaterialLibrary st line = .ok st') : st'.G = st.G ∧ st'.F = st.F := by
  unfold processMaterialLibrary at h
  split at h
  · exact absurd h (by simp)
  · split at h
    · simp at h
      subst h
      exact ⟨rfl, rfl⟩
    · exact absurd h (by simp)

theorem processUseMaterial_GF {α : Type} {st st' : ObjBuffer α} {line : Str}
    (h : processUseMaterial st line = .ok st') : st'.G = st.G ∧ st'.F = st.F := by
  unfold processUseMaterial at h
  split at h
  · simp at h
    subst h
    exact ⟨rfl, rfl⟩
  · exact absurd h (by simp)

theorem usemtlFaceGroupUpdate_GF {α : Type} (st : ObjBuffer α) :
    (usemtlFaceGroupUpdate st).G = st.G ∧ (usemtlFaceGroupUpdate st).F = st.F := by
  unfold usemtlFaceGroupUpdate
  split <;> exact ⟨rfl, rfl⟩

theorem processOneLine_gInv {M : FloatModel} {opts : ReadOptions}
    {st st' : ObjBuffer M.Flt} {raw : Str}
    (h : processOneLine M opts st raw = .ok st')
    (hinv : gTrackInv st.G st.F.length) : gTrackInv st'.G st'.F.length := by
  simp only [processOneLine] at h
  split at h
  · simp at h
    subst h
    exact hinv
  · split at h
    · simp at h
      subst h
      exact hinv
    · split_ifs at h with h1 h2 h3 h4 h5 h6 h7 h8 h9
      · obtain ⟨hG, hF⟩ := processVertexTexCoord_GF h
        rw [hG, hF]
        exact hinv
      · obtain ⟨hG, hF⟩ := processVertex_GF h
        rw [hG, hF]
        exact hinv
      · obtain ⟨hG, hF⟩ := processVertexNormal_GF h
        rw [hG, hF]
        exact hinv
      · obtain ⟨hG, hF⟩ := processFace_GF h
        rw [hG]
        rcases hF with hF | ⟨f, hF⟩
        · rw [hF]; exact hinv
        · rw [hF]
          exact gTrackInv_mono hinv (by simp)
      · obtain ⟨hG, hF⟩ := processLine_GF h
        rw [hG, hF]
        exact hinv
      · obtain ⟨name, hEq⟩ := processGroup_ok h
        subst hEq
        exact startGroup_gTrackInv (endGroup_groupCountsOk hinv).1 name
      · obtain ⟨hG, hF⟩ := processMaterialLibrary_GF h
        rw [hG, hF]
        exact hinv
      · obtain ⟨hG, hF⟩ := processUseMaterial_GF h
        obtain ⟨hG2, hF2⟩ := usemtlFaceGroupUpdate_GF st
        rw [hG, hF, hG2, hF2]
        exact hinv
      · simp at h
        subst h
        exact hinv

theorem readLinesAux_gInv {M : FloatModel} {opts : ReadOptions} :
    ∀ {lines : List Str} {i : Nat} {st st' : ObjBuffer M.Flt},
    readLinesAux M opts lines i st = .ok st' →
    gTrackInv st.G st.F.length → gTrackInv st'.G st'.F.length := by
  intro lines
  induction lines with
  | nil =>
    intro i st st' h hinv
    unfold readLinesAux at h
    simp at h
    subst h
    exact hinv
  | cons raw rest ih =>
    intro i st st' h hinv
    unfold readLinesAux at h
    cases hp : processOneLine M opts st raw with
    | error e => simp only [hp] at h; exact absurd h (by simp)
    | ok st1 =>
      simp only [hp] at h
      exact ih h (processOneLine_gInv hp hinv)

/-! ## Lemmas about the group extractor -/

theorem mapLookupInsert_spec {β : Type} {src arr : List β} {mapping seen : List Int}
    {idx : Int} (hm : mapInv src mapping seen)
    (harr : arr.map some = seen.map (fun i => src.get? i.toNat))
    (h0 : 0 ≤ idx) (hlt : idx.toNat < src.length) :
    ∃ mp arr2,
      mapLookupInsert mapping src arr idx =
        some (mp, arr2, ((seenStep seen idx).indexOf idx : Int)) ∧
      mapInv src mp (seenStep seen idx) ∧
      arr2.map some = (seenStep seen idx).map (fun i => src.get? i.toNat) := by
  obtain ⟨hlen, hbound, hnodup, hmap⟩ := hm
  have hi : idx.toNat < mapping.length := by omega
  have hget : listGetI mapping idx = some (mapping.get ⟨idx.toNat, hi⟩) := by
    unfold listGetI
    rw [dif_pos ⟨h0, hi⟩]
  have hcast : ((idx.toNat : Nat) : Int) = idx := Int.toNat_of_nonneg h0
  have hmv := hmap idx.toNat hi
  rw [hcast] at hmv
  have harrlen : arr.length = seen.length := by
    have := congrArg List.length harr
    simpa using this
  by_cases hmem : idx ∈ seen
  · have hstep : seenStep seen idx = seen := by simp [seenStep, hmem]
    have hne : mapping.get ⟨idx.toNat, hi⟩ ≠ -1 := by
      rw [hmv, if_pos hmem]
      have : seen.indexOf idx < seen.length := List.indexOf_lt_length.mpr hmem
      omega
    refine ⟨mapping, arr, ?_, ?_, ?_⟩
    · simp only [mapLookupInsert, hget, if_neg hne]
      rw [hstep, hmv, if_pos hmem]
    · rw [hstep]
      exact ⟨hlen, hbound, hnodup, hmap⟩
    · rw [hstep]
      exact harr
  · have hstep : seenStep seen idx = seen ++ [idx] := by simp [seenStep, hmem]
    have hgv : mapping.get ⟨idx.toNat, hi⟩ = -1 := by rw [hmv, if_neg hmem]
    have hsrc : listGetI src idx = some (src.get ⟨idx.toNat, hlt⟩) := by
      unfold listGetI
      rw [dif_pos ⟨h0, hlt⟩]
    have hset : listSetI mapping idx (arr.length : Int) =
        some (mapping.set idx.toNat (arr.length : Int)) := by
      unfold listSetI
      rw [if_pos ⟨h0, hi⟩]
    have hidxof : (seen ++ [idx]).indexOf idx = seen.length := by
      rw [List.indexOf_append_of_not_mem hmem]
      simp
    refine ⟨mapping.set idx.toNat (arr.length : Int),
      arr ++ [src.get ⟨idx.toNat, hlt⟩], ?_, ?_, ?_⟩
    · simp only [mapLookupInsert, hget, hgv, if_pos rfl, hsrc, hset]
      rw [hstep, hidxof, harrlen]
      simp
    · rw [hstep]
      refine ⟨by simp [hlen], ?_, ?_, ?_⟩
      · intro x hx
        rcases List.mem_append.mp hx with hx | hx
        · exact hbound x hx
        · simp at hx
          subst hx
          exact ⟨h0, hlt⟩
      · simp [List.nodup_append, hnodup, hmem]
      · intro i hi2
        have hi3 : i < mapping.length := by simpa using hi2
        by_cases hieq : i = idx.toNat
        · subst hieq
          have hgeti : (mapping.set idx.toNat (arr.length : Int)).get ⟨idx.toNat, hi2⟩ =
              (arr.length : Int) := by simp
          rw [hgeti, hcast, if_pos (by simp), hidxof, harrlen]
        · have hgeti : (mapping.set idx.toNat (arr.length : Int)).get ⟨i, hi2⟩ =
              mapping.get ⟨i, hi3⟩ := by
            simp [List.getElem_set_ne (by omega : idx.toNat ≠ i)]
          rw [hgeti, hmap i hi3]
          have hneq : ((i : Nat) : Int) ≠ idx := by omega
          by_cases hmem2 : ((i : Nat) : Int) ∈ seen
          · rw [if_pos hmem2, if_pos (List.mem_append.mpr (Or.inl hmem2)),
              List.indexOf_append_of_mem hmem2]
          · rw [if_neg hmem2, if_neg ?hnm]
            case hnm =>
              intro hc
              rcases List.mem_append.mp hc with hc | hc
              · exact hmem2 hc
              · simp at hc
                exact hneq hc
    · rw [hstep]
      have hv : some (src.get ⟨idx.toNat, hlt⟩) = src.get? idx.toNat :=
        (List.get?_eq_get hlt).symm
      simp [harr, hv]

theorem seenFold_cons (seen : List Int) (x : Int) (xs : List Int) :
    seenFold seen (x :: xs) = seenFold (seenStep seen x) xs := rfl

theorem seenFold_append (seen : List Int) (l1 l2 : List Int) :
    seenFold seen (l1 ++ l2) = seenFold (seenFold seen l1) l2 := by
  simp [seenFold, List.foldl_append]

theorem mem_seenStep_self (seen : List Int) (x : Int) : x ∈ seenStep seen x := by
  by_cases hx : x ∈ seen <;> simp [seenStep, hx]

theorem mem_seenStep_of_mem {seen : List Int} {y : Int} (x : Int) (h : y ∈ seen) :
    y ∈ seenStep seen x := by
  by_cases hx : x ∈ seen <;> simp [seenStep, hx, h]

theorem seenFold_ext (l : List Int) : ∀ seen : List Int,
    ∃ ext, seenFold seen l = seen ++ ext := by
  induction l with
  | nil => intro seen; exact ⟨[], by simp [seenFold]⟩
  | cons x xs ih =>
    intro seen
    rw [seenFold_cons]
    by_cases hx : x ∈ seen
    · obtain ⟨ext, hext⟩ := ih (seenStep seen x)
      refine ⟨ext, ?_⟩
      rw [hext]
      simp [seenStep, hx]
    · obtain ⟨ext, hext⟩ := ih (seenStep seen x)
      refine ⟨x :: ext, ?_⟩
      rw [hext]
      simp [seenStep, hx]

theorem mem_seenFold_left {seen : List Int} {x : Int} (l : List Int) (h : x ∈ seen) :
    x ∈ seenFold seen l := by
  obtain ⟨ext, hext⟩ := seenFold_ext l seen
  rw [hext]
  exact List.mem_append.mpr (Or.inl h)

theorem mem_seenFold_right {l : List Int} {x : Int} : ∀ {seen : List Int}, x ∈ l →
    x ∈ seenFold seen l := by
  induction l with
  | nil => intro seen h; simp at h
  | cons y ys ih =>
    intro seen h
    rw [seenFold_cons]
    rcases List.mem_cons.mp h with h | h
    · subst h
      exact mem_seenFold_left ys (mem_seenStep_self seen x)
    · exact ih h

theorem mem_seenFold_iff {l : List Int} {x : Int} : ∀ {seen : List Int},
    x ∈ seenFold seen l ↔ x ∈ seen ∨ x ∈ l := by
  induction l with
  | nil => intro seen; simp [seenFold]
  | cons y ys ih =>
    intro seen
    rw [seenFold_cons]
    constructor
    · intro h
      rcases ih.mp h with h | h
      · by_cases hy : y ∈ seen
        · simp [seenStep, hy] at h
          exact Or.inl h
        · simp [seenStep, hy] at h
          rcases h with h | h
          · exact Or.inl h
          · exact Or.inr (by simp [h])
      · exact Or.inr (by simp [h])
    · intro h
      rcases h with h | h
      · exact mem_seenFold_left ys (mem_seenStep_of_mem y h)
      · rcases List.mem_cons.mp h with h | h
        · subst h
          exact mem_seenFold_left ys (mem_seenStep_self seen x)
        · exact mem_seenFold_right h

theorem indexOf_seenFold_of_mem {seen : List Int} {x : Int} (l : List Int)
    (h : x ∈ seen) : (seenFold seen l).indexOf x = seen.indexOf x := by
  obtain ⟨ext, hext⟩ := seenFold_ext l seen
  rw [hext]
  exact List.indexOf_append_of_mem h

theorem buildCornerStep_spec {α : Type} {b : ObjBuffer α} {s : BuildState α}
    {seenV seenN : List Int} {c : FaceCorner}
    (hinv : buildInv b s seenV seenN)
    (hv0 : 0 ≤ c.VertexIndex) (hv1 : c.VertexIndex.toNat < b.V.length)
    (hn0 : 0 ≤ c.NormalIndex) (hn1 : c.NormalIndex.toNat < b.VN.length) :
    ∃ s1, buildCornerStep s c = some (s1,
        ⟨((seenStep seenV c.VertexIndex).indexOf c.VertexIndex : Int),
         ((seenStep seenN c.NormalIndex).indexOf c.NormalIndex : Int), 0⟩) ∧
      buildInv b s1 (seenStep seenV c.VertexIndex) (seenStep seenN c.NormalIndex) ∧
      s1.buffer.F = s.buffer.F ∧ s1.buffer.MTL = s.buffer.MTL ∧
      s1.buffer.G = s.buffer.G := by
  obtain ⟨hpar, hmV, hmN, haV, haN⟩ := hinv
  obtain ⟨vmp, varr, hva, hvb, hvc⟩ := mapLookupInsert_spec hmV haV hv0 hv1
  obtain ⟨nmp, narr, hna, hnb, hnc⟩ := mapLookupInsert_spec hmN haN hn0 hn1
  refine ⟨{ s with
      vertexMapping := vmp
      normalMapping := nmp
      buffer := { s.buffer with V := varr, VN := narr } }, ?_, ?_, rfl, rfl, rfl⟩
  · simp only [buildCornerStep, hpar, hva, hna]
  · exact ⟨hpar, hvb, hnb, hvc, hnc⟩

theorem buildFaceCorners_spec {α : Type} {b : ObjBuffer α} :
    ∀ {cs : List FaceCorner} {s : BuildState α} {seenV seenN : List Int},
    buildInv b s seenV seenN →
    (∀ c ∈ cs, 0 ≤ c.VertexIndex ∧ c.VertexIndex.toNat < b.V.length ∧
      0 ≤ c.NormalIndex ∧ c.NormalIndex.toNat < b.VN.length) →
    ∃ s1, buildFaceCorners s cs = some (s1, cs.map (fun c =>
        (⟨((seenFold seenV (cs.map (fun c2 => c2.VertexIndex))).indexOf c.VertexIndex : Int),
          ((seenFold seenN (cs.map (fun c2 => c2.NormalIndex))).indexOf c.NormalIndex : Int),
          0⟩ : FaceCorner))) ∧
      buildInv b s1 (seenFold seenV (cs.map (fun c2 => c2.VertexIndex)))
        (seenFold seenN (cs.map (fun c2 => c2.NormalIndex))) ∧
      s1.buffer.F = s.buffer.F ∧ s1.buffer.MTL = s.buffer.MTL ∧
      s1.buffer.G = s.buffer.G := by
  intro cs
  induction cs with
  | nil =>
    intro s seenV seenN hinv hb
    exact ⟨s, rfl, hinv, rfl, rfl, rfl⟩
  | cons c cs ih =>
    intro s seenV seenN hinv hb
    have hc := hb c (List.mem_cons_self _ _)
    obtain ⟨s1, h1, hinv1, hF1, hM1, hG1⟩ :=
      buildCornerStep_spec hinv hc.1 hc.2.1 hc.2.2.1 hc.2.2.2
    obtain ⟨s2, h2, hinv2, hF2, hM2, hG2⟩ :=
      ih hinv1 (fun x hx => hb x (List.mem_cons_of_mem _ hx))
    have hheadV : (seenFold (seenStep seenV c.VertexIndex)
          (cs.map (fun c2 => c2.VertexIndex))).indexOf c.VertexIndex =
        (seenStep seenV c.VertexIndex).indexOf c.VertexIndex :=
      indexOf_seenFold_of_mem _ (mem_seenStep_self _ _)
    have hheadN : (seenFold (seenStep seenN c.NormalIndex)
          (cs.map (fun c2 => c2.NormalIndex))).indexOf c.NormalIndex =
        (seenStep seenN c.NormalIndex).indexOf c.NormalIndex :=
      indexOf_seenFold_of_mem _ (mem_seenStep_self _ _)
    refine ⟨s2, ?_, ?_, by rw [hF2, hF1], by rw [hM2, hM1], by rw [hG2, hG1]⟩
    · simp only [buildFaceCorners, h1, h2, List.map_cons, seenFold_cons, hheadV, hheadN]
    · simp only [List.map_cons, seenFold_cons]
      exact hinv2

theorem buildFacesLoop_spec {α : Type} {b : ObjBuffer α} :
    ∀ {fs : List Face} {s : BuildState α} {seenV seenN : List Int},
    buildInv b s seenV seenN →
    (∀ f ∈ fs, ∀ c ∈ f.Corners, 0 ≤ c.VertexIndex ∧ c.VertexIndex.toNat < b.V.length ∧
      0 ≤ c.NormalIndex ∧ c.NormalIndex.toNat < b.VN.length) →
    ∃ s1, buildFacesLoop s fs = some s1 ∧
      buildInv b s1 (seenFold seenV (faceVertexRefs fs))
        (seenFold seenN (faceNormalRefs fs)) ∧
      s1.buffer.F = s.buffer.F ++ fs.map (fun f =>
        (⟨f.Corners.map (fun c =>
            (⟨((seenFold seenV (faceVertexRefs fs)).indexOf c.VertexIndex : Int),
              ((seenFold seenN (faceNormalRefs fs)).indexOf c.NormalIndex : Int),
              0⟩ : FaceCorner)),
          f.Material⟩ : Face)) ∧
      s1.buffer.MTL = s.buffer.MTL ∧ s1.buffer.G = s.buffer.G := by
  intro fs
  induction fs with
  | nil =>
    intro s seenV seenN hinv hb
    exact ⟨s, rfl, hinv, by simp [faceVertexRefs, faceNormalRefs, seenFold], rfl, rfl⟩
  | cons f fs ih =>
    intro s seenV seenN hinv hb
    have hf := hb f (List.mem_cons_self _ _)
    obtain ⟨s1, h1, hinv1, hF1, hM1, hG1⟩ := buildFaceCorners_spec hinv hf
    have hrefsV : faceVertexRefs (f :: fs) =
        f.Corners.map (fun c2 => c2.VertexIndex) ++ faceVertexRefs fs := by
      simp [faceVertexRefs]
    have hrefsN : faceNormalRefs (f :: fs) =
        f.Corners.map (fun c2 => c2.NormalIndex) ++ faceNormalRefs fs := by
      simp [faceNormalRefs]
    obtain ⟨s2, h2, hinv2, hF2, hM2, hG2⟩ :=
      ih (s := { s1 with buffer :=
        { s1.buffer with F := s1.buffer.F ++ [⟨f.Corners.map (fun c =>
            (⟨((seenFold seenV (f.Corners.map (fun c2 => c2.VertexIndex))).indexOf
                  c.VertexIndex : Int),
              ((seenFold seenN (f.Corners.map (fun c2 => c2.NormalIndex))).indexOf
                  c.NormalIndex : Int), 0⟩ : FaceCorner)), f.Material⟩] } })
        hinv1 (fun x hx => hb x (List.mem_cons_of_mem _ hx))
    refine ⟨s2, ?_, ?_, ?_, by rw [hM2]; exact hM1, by rw [hG2]; exact hG1⟩
    · simp only [buildFacesLoop, h1, h2]
    · rw [hrefsV, hrefsN, seenFold_append, seenFold_append]
      exact hinv2
    · rw [hF2]
      simp only [List.map_cons]
      rw [hrefsV, hrefsN, seenFold_append, seenFold_append, hF1]
      have hface : (⟨f.Corners.map (fun c =>
            (⟨((seenFold seenV (f.Corners.map (fun c2 => c2.VertexIndex))).indexOf
                  c.VertexIndex : Int),
              ((seenFold seenN (f.Corners.map (fun c2 => c2.NormalIndex))).indexOf
                  c.NormalIndex : Int), 0⟩ : FaceCorner)), f.Material⟩ : Face) =
          (⟨f.Corners.map (fun c =>
            (⟨((seenFold (seenFold seenV (f.Corners.map (fun c2 => c2.VertexIndex)))
                  (faceVertexRefs fs)).indexOf c.VertexIndex : Int),
              ((seenFold (seenFold seenN (f.Corners.map (fun c2 => c2.NormalIndex)))
                  (faceNormalRefs fs)).indexOf c.NormalIndex : Int),
              0⟩ : FaceCorner)), f.Material⟩ : Face) := by
        congr 1
        apply List.map_congr_left
        intro c hc
        have hmV : c.VertexIndex ∈
            seenFold seenV (f.Corners.map (fun c2 => c2.VertexIndex)) :=
          mem_seenFold_right (by
            exact List.mem_map.mpr ⟨c, hc, rfl⟩)
        have hmN : c.NormalIndex ∈
            seenFold seenN (f.Corners.map (fun c2 => c2.NormalIndex)) :=
          mem_seenFold_right (by
            exact List.mem_map.mpr ⟨c, hc, rfl⟩)
        rw [indexOf_seenFold_of_mem _ hmV, indexOf_seenFold_of_mem _ hmN]
      rw [hface]
      simp

theorem buildInv_init {α : Type} (g : Group) (b : ObjBuffer α) :
    buildInv b
      { parent := b
        buffer := { MTL := b.MTL, G := [⟨g.Name, 0, g.FaceCount⟩] }
        vertexMapping := fillIntSlice b.V.length (-1)
        normalMapping := fillIntSlice b.VN.length (-1) } [] [] := by
  refine ⟨rfl, ⟨?_, ?_, ?_, ?_⟩, ⟨?_, ?_, ?_, ?_⟩, rfl, rfl⟩
  · simp [fillIntSlice]
  · intro x hx; simp at hx
  · exact List.nodup_nil
  · intro i hi
    simp [fillIntSlice]
  · simp [fillIntSlice]
  · intro x hx; simp at hx
  · exact List.nodup_nil
  · intro i hi
    simp [fillIntSlice]

theorem sliceFaces_eq {fs : List Face} {first count : Int} (h0 : 0 ≤ first)
    (h1 : 0 ≤ count) (h2 : first + count ≤ (fs.length : Int)) :
    sliceFaces fs first count = some ((fs.drop first.toNat).take count.toNat) := by
  unfold sliceFaces
  by_cases hc : count ≤ 0
  · have hcz : count = 0 := by omega
    subst hcz
    simp
  · rw [if_neg hc, if_pos ⟨h0, h2⟩]

theorem buildCornerStep_parent {α : Type} {s s1 : BuildState α} {c c1 : FaceCorner}
    (h : buildCornerStep s c = some (s1, c1)) : s1.parent = s.parent := by
  unfold buildCornerStep at h
  cases h1 : mapLookupInsert s.vertexMapping s.parent.V s.buffer.V c.VertexIndex with
  | none => simp only [h1] at h; exact absurd h (by simp)
  | some t =>
    obtain ⟨vm, bV, newV⟩ := t
    simp only [h1] at h
    cases h2 : mapLookupInsert s.normalMapping s.parent.VN s.buffer.VN c.NormalIndex with
    | none => simp only [h2] at h; exact absurd h (by simp)
    | some t2 =>
      obtain ⟨nm, bVN, newN⟩ := t2
      simp only [h2] at h
      simp at h
      rw [← h.1]

theorem buildFaceCorners_parent {α : Type} :
    ∀ {cs : List FaceCorner} {s s1 : BuildState α} {cs1 : List FaceCorner},
    buildFaceCorners s cs = some (s1, cs1) → s1.parent = s.parent := by
  intro cs
  induction cs with
  | nil =>
    intro s s1 cs1 h
    unfold buildFaceCorners at h
    simp at h
    rw [← h.1]
  | cons c cs ih =>
    intro s s1 cs1 h
    unfold buildFaceCorners at h
    cases h1 : buildCornerStep s c with
    | none => simp only [h1] at h; exact absurd h (by simp)
    | some t =>
      obtain ⟨sm, cm⟩ := t
      simp only [h1] at h
      cases h2 : buildFaceCorners sm cs with
      | none => simp only [h2] at h; exact absurd h (by simp)
      | some t2 =>
        obtain ⟨s2, cs2⟩ := t2
        simp only [h2] at h
        simp at h
        rw [← h.1]
        rw [ih h2, buildCornerStep_parent h1]

theorem buildFacesLoop_parent {α : Type} :
    ∀ {fs : List Face} {s s1 : BuildState α},
    buildFacesLoop s fs = some s1 → s1.parent = s.parent := by
  intro fs
  induction fs with
  | nil =>
    intro s s1 h
    unfold buildFacesLoop at h
    simp at h
    rw [← h]
  | cons f fs ih =>
    intro s s1 h
    unfold buildFacesLoop at h
    cases h1 : buildFaceCorners s f.Corners with
    | none => simp only [h1] at h; exact absurd h (by simp)
    | some t =>
      obtain ⟨sm, cs1⟩ := t
      simp only [h1] at h
      have hp := buildFaceCorners_parent h1
      rw [ih h]
      exact hp

/-! ## Lemmas about the triangulator loop measure -/

theorem triFuelDec_rej (L g r : Nat) (hg : g < L) :
    r * (L + 2) * (L + 2) + L * (L + 2) + (L - (g + 1)) + 1 <
    r * (L + 2) * (L + 2) + L * (L + 2) + (L - g) + 1 := by omega

theorem triFuelDec_rejWrap (L g r : Nat) (h3 : 3 < L) (hr : 0 < r) (hg : L ≤ g) :
    (r - 1) * (L + 2) * (L + 2) + L * (L + 2) + (L - (g - L + 1)) + 1 <
    r * (L + 2) * (L + 2) + L * (L + 2) + (L - g) + 1 := by
  have h1 : r * (L + 2) * (L + 2) =
      (r - 1) * (L + 2) * (L + 2) + (L + 2) * (L + 2) := by
    cases r with
    | zero => omega
    | succ n => simp [Nat.succ_mul, Nat.succ_sub_one]; ring
  have h2 : L + 2 ≤ (L + 2) * (L + 2) := Nat.le_mul_of_pos_left _ (by omega)
  omega

theorem triFuelDec_acc (L g r : Nat) (h3 : 3 < L) (hg : g < L) :
    r * (L - 1 + 2) * (L - 1 + 2) + (L - 1) * (L - 1 + 2) + (L - 1 - g) + 1 <
    r * (L + 2) * (L + 2) + L * (L + 2) + (L - g) + 1 := by
  obtain ⟨n, rfl⟩ : ∃ n, L = n + 4 := ⟨L - 4, by omega⟩
  have e1 : n + 4 - 1 = n + 3 := by omega
  rw [e1]
  have h1 : r * (n + 3 + 2) * (n + 3 + 2) ≤ r * (n + 4 + 2) * (n + 4 + 2) :=
    Nat.mul_le_mul (Nat.mul_le_mul_left _ (by omega)) (by omega)
  have h2 : (n + 3) * (n + 3 + 2) < (n + 4) * (n + 4 + 2) := by ring_nf; omega
  omega

theorem triFuelDec_accWrap (L g r : Nat) (h3 : 3 < L) (hr : 0 < r) (hg : L ≤ g) :
    (r - 1) * (L - 1 + 2) * (L - 1 + 2) + (L - 1) * (L - 1 + 2) +
      (L - 1 - (g - L)) + 1 <
    r * (L + 2) * (L + 2) + L * (L + 2) + (L - g) + 1 := by
  obtain ⟨n, rfl⟩ : ∃ n, L = n + 4 := ⟨L - 4, by omega⟩
  have e1 : n + 4 - 1 = n + 3 := by omega
  rw [e1]
  have h1 : (r - 1) * (n + 3 + 2) * (n + 3 + 2) ≤
      (r - 1) * (n + 4 + 2) * (n + 4 + 2) :=
    Nat.mul_le_mul (Nat.mul_le_mul_left _ (by omega)) (by omega)
  have h2 : r * (n + 4 + 2) * (n + 4 + 2) =
      (r - 1) * (n + 4 + 2) * (n + 4 + 2) + (n + 4 + 2) * (n + 4 + 2) := by
    cases r with
    | zero => omega
    | succ m => simp [Nat.succ_mul, Nat.succ_sub_one]; ring
  have h3' : (n + 3) * (n + 3 + 2) < (n + 4 + 2) * (n + 4 + 2) := by ring_nf; omega
  have h4 : n + 4 ≤ (n + 4) * (n + 4 + 2) := Nat.le_mul_of_pos_right _ (by omega)
  omega

/-- One step of the ear loop: its result only depends on the continuation
at states of strictly smaller measure. -/
theorem triMainBody_congr {α : Type} (A : TriArith α) (V : List (Vec3 α))
    (a0 a1 : Nat) (area : α)
    {recur1 recur2 : List FaceCorner → Nat → Nat → List (List FaceCorner) →
      Option (List FaceCorner × List (List FaceCorner))}
    {rem : List FaceCorner} {guess rounds : Nat} {ret : List (List FaceCorner)}
    (hL : 3 < rem.length) (hr : 0 < rounds)
    (hrec : ∀ rem1 guess1 rounds1 ret1,
      triFuel rem1 guess1 rounds1 < triFuel rem guess rounds →
      recur1 rem1 guess1 rounds1 ret1 = recur2 rem1 guess1 rounds1 ret1) :
    triMainBody A V a0 a1 area recur1 rem guess rounds ret =
    triMainBody A V a0 a1 area recur2 rem guess rounds ret := by
  by_cases hg : guess ≥ rem.length
  · simp only [triMainBody, if_pos hg]
    have hW : triFuel rem (guess - rem.length + 1) (rounds - 1) <
        triFuel rem guess rounds := by
      unfold triFuel
      exact triFuelDec_rejWrap rem.length guess rounds hL hr hg
    have hA : triFuel (rem.eraseIdx ((guess - rem.length + 1) % rem.length))
        (guess - rem.length) (rounds - 1) < triFuel rem guess rounds := by
      unfold triFuel
      rw [List.length_eraseIdx_of_lt (Nat.mod_lt _ (by omega))]
      exact triFuelDec_accWrap rem.length guess rounds hL hr hg
    split
    · split
      · exact hrec _ _ _ _ hW
      · split
        · rfl
        · exact hrec _ _ _ _ hW
        · exact hrec _ _ _ _ hA
    · rfl
  · simp only [triMainBody, if_neg hg]
    have hW : triFuel rem (guess + 1) rounds < triFuel rem guess rounds := by
      unfold triFuel
      exact triFuelDec_rej rem.length guess rounds (by omega)
    have hA : triFuel (rem.eraseIdx ((guess + 1) % rem.length)) guess rounds <
        triFuel rem guess rounds := by
      unfold triFuel
      rw [List.length_eraseIdx_of_lt (Nat.mod_lt _ (by omega))]
      exact triFuelDec_acc rem.length guess rounds hL (by omega)
    split
    · split
      · exact hrec _ _ _ _ hW
      · split
        · rfl
        · exact hrec _ _ _ _ hW
        · exact hrec _ _ _ _ hA
    · rfl

/-- The ear-clipping loop stabilizes: any fuel at least the measure of the
starting state gives the same result as running with exactly the measure,
so the recursion depth of the loop is bounded a priori by triFuel and the
loop terminates on every input. -/
theorem triMainLoop_fuel_stable {α : Type} (A : TriArith α) (V : List (Vec3 α))
    (a0 a1 : Nat) (area : α) :
    ∀ fuel rem guess rounds ret, triFuel rem guess rounds ≤ fuel →
      triMainLoop A V a0 a1 area fuel rem guess rounds ret =
      triMainLoop A V a0 a1 area (triFuel rem guess rounds) rem guess rounds ret := by
  intro fuel
  induction fuel using Nat.strong_induction_on with
  | _ fuel ih =>
    intro rem guess rounds ret hle
    rcases Nat.eq_or_lt_of_le hle with heq | hlt
    · rw [heq]
    · obtain ⟨m, rfl⟩ : ∃ m, fuel = m + 1 := ⟨fuel - 1, by omega⟩
      have hpos : 0 < triFuel rem guess rounds := by unfold triFuel; omega
      rw [show triFuel rem guess rounds = (triFuel rem guess rounds - 1) + 1 by omega]
      by_cases hcond : 3 < rem.length ∧ 0 < rounds
      · simp only [triMainLoop, if_pos hcond]
        apply triMainBody_congr A V a0 a1 area hcond.1 hcond.2
        intro rem1 guess1 rounds1 ret1 hdec
        rw [ih m (by omega) rem1 guess1 rounds1 ret1 (by omega),
          ih (triFuel rem guess rounds - 1) (by omega) rem1 guess1 rounds1 ret1
            (by omega)]
      · simp only [triMainLoop, if_neg hcond]

/-! ## Lemmas about the writer and re-reading written lines -/

theorem dropWhile_eq_self_of_head {p : Char → Bool} {s : Str}
    (h : s.head?.all (fun c => !p c) = true) : s.dropWhile p = s := by
  cases s with
  | nil => rfl
  | cons c cs =>
    simp only [List.head?_cons, Option.all_some, Bool.not_eq_true'] at h
    simp [List.dropWhile_cons, h]

theorem goTrimSpace_eq_self {s : Str}
    (h1 : s.head?.all (fun c => !isGoSpace c) = true)
    (h2 : s.getLast?.all (fun c => !isGoSpace c) = true) : goTrimSpace s = s := by
  unfold goTrimSpace
  rw [dropWhile_eq_self_of_head h1, dropWhile_eq_self_of_head (by
      rw [List.head?_reverse]; exact h2), List.reverse_reverse]

theorem commentStrip_eq_self {s : Str} (h : ∀ c ∈ s, c ≠ '#') :
    commentStrip s = s := by
  induction s with
  | nil => rfl
  | cons c cs ih =>
    have hc : c ≠ '#' := h c (List.mem_cons_self c cs)
    have ih2 := ih (fun x hx => h x (List.mem_cons_of_mem _ hx))
    unfold commentStrip at ih2 ⊢
    simp only [List.takeWhile_cons]
    simp [hc, ih2]
    intro x hx
    exact h x (List.mem_cons_of_mem _ hx)

theorem dropWhile_append_last {p : Char → Bool} (l : Str) (c : Char)
    (hc : p c = false) : ∃ s, (l ++ [c]).dropWhile p = s ++ [c] := by
  induction l with
  | nil => exact ⟨[], by simp [List.dropWhile_cons, hc]⟩
  | cons a l ih =>
    by_cases ha : p a = true
    · simpa [List.dropWhile_cons, ha] using ih
    · refine ⟨a :: l, ?_⟩
      simp only [List.cons_append, List.dropWhile_cons]
      rw [Bool.not_eq_true] at ha
      simp [ha]

theorem goTrimSpace_cons_head {c : Char} (hc : isGoSpace c = false) (t : Str) :
    ∃ u, goTrimSpace (c :: t) = c :: u := by
  unfold goTrimSpace
  rw [List.dropWhile_cons]
  simp only [hc, Bool.false_eq_true, if_false, List.reverse_cons]
  obtain ⟨s, hs⟩ := dropWhile_append_last t.reverse c hc
  rw [hs, List.reverse_append]
  exact ⟨s.reverse, by simp⟩

theorem processOneLine_hash (M : FloatModel) (opts : ReadOptions)
    (st : ObjBuffer M.Flt) (t : Str) :
    processOneLine M opts st ('#' :: t) = .ok st := by
  obtain ⟨u, hu⟩ := goTrimSpace_cons_head (c := '#') (by decide) t
  unfold processOneLine
  rw [hu]
  have h2 : commentStrip ('#' :: u) = [] := by
    simp [commentStrip, List.takeWhile_cons]
  rw [h2]
  simp

theorem goFieldsAux_nonspace (t : Str) (ht : ∀ c ∈ t, isGoSpace c = false) :
    ∀ r acc, goFieldsAux (t ++ r) acc = goFieldsAux r (t.reverse ++ acc) := by
  induction t with
  | nil => intro r acc; simp
  | cons c cs ih =>
    intro r acc
    have hc := ht c (List.mem_cons_self c cs)
    simp only [List.cons_append, goFieldsAux, hc, Bool.false_eq_true, if_false,
      List.append_eq]
    rw [ih (fun x hx => ht x (List.mem_cons_of_mem _ hx)) r (c :: acc)]
    simp

theorem goFields_space_cons (r : Str) : goFields (' ' :: r) = goFields r := by
  simp [goFields, goFieldsAux, isGoSpace]

theorem goFields_token_cons (t : Str) (htne : t ≠ [])
    (ht : ∀ c ∈ t, isGoSpace c = false) (r : Str) :
    goFields (t ++ ' ' :: r) = t :: goFields r := by
  unfold goFields
  rw [goFieldsAux_nonspace t ht (' ' :: r) []]
  have hne : t.reverse.isEmpty = false := by
    simp [List.isEmpty_iff, htne]
  simp [goFieldsAux, isGoSpace, hne]

theorem goFields_single_token (t : Str) (htne : t ≠ [])
    (ht : ∀ c ∈ t, isGoSpace c = false) : goFields t = [t] := by
  unfold goFields
  have h := goFieldsAux_nonspace t ht [] []
  rw [List.append_nil] at h
  rw [h]
  have hne : t.reverse.isEmpty = false := by
    simp [List.isEmpty_iff, htne]
  simp [goFieldsAux, hne]

theorem goFields_space_tokens (toks : List Str)
    (h : ∀ t ∈ toks, t ≠ [] ∧ ∀ c ∈ t, isGoSpace c = false) :
    goFields ((toks.map (fun t => ' ' :: t)).flatten) = toks := by
  induction toks with
  | nil => rfl
  | cons t ts ih =>
    simp only [List.map_cons, List.flatten_cons, List.cons_append]
    rw [goFields_space_cons]
    cases ts with
    | nil =>
      simpa using goFields_single_token t (h t (by simp)).1 (h t (by simp)).2
    | cons t2 ts2 =>
      simp only [List.map_cons, List.flatten_cons, List.cons_append]
      rw [goFields_token_cons t (h t (by simp)).1 (h t (by simp)).2]
      have h2 := ih (fun x hx => h x (List.mem_cons_of_mem _ hx))
      simp only [List.map_cons, List.flatten_cons, List.cons_append] at h2
      rw [goFields_space_cons] at h2
      rw [h2]

theorem goFields_keyword_tokens (kw : Str) (hne : kw ≠ [])
    (hkw : ∀ c ∈ kw, isGoSpace c = false) (toks : List Str)
    (h : ∀ t ∈ toks, t ≠ [] ∧ ∀ c ∈ t, isGoSpace c = false) :
    goFields (kw ++ (toks.map (fun t => ' ' :: t)).flatten) = kw :: toks := by
  cases toks with
  | nil => simpa using goFields_single_token kw hne hkw
  | cons t ts =>
    simp only [List.map_cons, List.flatten_cons, List.cons_append]
    rw [goFields_token_cons kw hne hkw]
    have h2 := goFields_space_tokens (t :: ts) h
    simp only [List.map_cons, List.flatten_cons, List.cons_append] at h2
    rw [goFields_space_cons] at h2
    rw [h2]

theorem goSplitAux_nonsep (sep : Char) (t : Str) (ht : ∀ c ∈ t, c ≠ sep) :
    ∀ r acc, goSplitAux sep (t ++ r) acc = goSplitAux sep r (t.reverse ++ acc) := by
  induction t with
  | nil => intro r acc; simp
  | cons c cs ih =>
    intro r acc
    have hc : c ≠ sep := ht c (List.mem_cons_self c cs)
    simp only [List.cons_append, goSplitAux, hc, if_false, List.append_eq]
    rw [ih (fun x hx => ht x (List.mem_cons_of_mem _ hx)) r (c :: acc)]
    simp

theorem goSplit_sep_cons (sep : Char) (a : Str) (ha : ∀ c ∈ a, c ≠ sep)
    (b : Str) : goSplit (a ++ sep :: b) sep = a :: goSplit b sep := by
  unfold goSplit
  rw [goSplitAux_nonsep sep a ha (sep :: b) []]
  simp [goSplitAux]

theorem goSplit_nosep (sep : Char) (a : Str) (ha : ∀ c ∈ a, c ≠ sep) :
    goSplit a sep = [a] := by
  unfold goSplit
  have h := goSplitAux_nonsep sep a ha [] []
  rw [List.append_nil] at h
  rw [h]
  simp [goSplitAux]

theorem mem_natDigits_isDigit {n : Nat} {c : Char} (h : c ∈ natDigits n) :
    c.isDigit = true := by
  have h2 := natDigits_allDigits n
  unfold allDigits at h2
  rw [List.all_eq_true] at h2
  exact h2 c h

theorem isDigit_class {c : Char} (h : c.isDigit = true) :
    isGoSpace c = false ∧ c ≠ '#' ∧ c ≠ '/' := by
  refine ⟨?_, ?_, ?_⟩
  · by_contra hsp
    rw [Bool.not_eq_false] at hsp
    simp only [isGoSpace, Bool.or_eq_true, decide_eq_true_eq] at hsp
    rcases hsp with (((((((h1|h1)|h1)|h1)|h1)|h1)|h1)|h1) <;> subst h1 <;>
      exact absurd h (by decide)
  · rintro rfl; exact absurd h (by decide)
  · rintro rfl; exact absurd h (by decide)

theorem intToStr_nonneg_digits {i : Int} (h : 0 ≤ i) :
    ∀ c ∈ intToStr i, c.isDigit = true := by
  intro c hc
  unfold intToStr at hc
  rw [if_neg (by omega)] at hc
  exact mem_natDigits_isDigit hc

theorem intToStr_ne_nil (i : Int) : intToStr i ≠ [] := by
  unfold intToStr
  split
  · simp
  · exact natDigits_ne_nil _

theorem writeCornerTok_nosep {lenV lenVN lenVT : Nat} {c : FaceCorner}
    (h : wfCorner lenV lenVN lenVT c) :
    parseFaceField (writeCornerTok c) = .ok ⟨c.VertexIndex + 1,
      (if c.NormalIndex = -1 then -1 else c.NormalIndex + 1),
      (if c.TexCoordIndex = -1 then -1 else c.TexCoordIndex + 1)⟩ := by
  obtain ⟨⟨hv0, hvb⟩, hn, ht⟩ := h
  have hvd : ∀ x ∈ intToStr (c.VertexIndex + 1), x ≠ '/' :=
    fun x hx => (isDigit_class (intToStr_nonneg_digits (by omega) x hx)).2.2
  unfold writeCornerTok parseFaceField
  by_cases hN : c.NormalIndex = -1 <;> by_cases hT : c.TexCoordIndex = -1
  · rw [if_neg (by simp [hN]), if_neg (by simp [hT])]
    rw [goSplit_nosep _ _ hvd]
    simp [matchInt_intToStr, hN, hT]
  · have ht2 : 0 ≤ c.TexCoordIndex := (ht.resolve_left hT).1
    have htd : ∀ x ∈ intToStr (c.TexCoordIndex + 1), x ≠ '/' :=
      fun x hx => (isDigit_class (intToStr_nonneg_digits (by omega) x hx)).2.2
    rw [if_neg (by simp [hN]), if_pos (by simp [hT])]
    rw [goSplit_sep_cons _ _ hvd, goSplit_nosep _ _ htd]
    simp [matchInt_intToStr, hN, hT]
  · have hn2 : 0 ≤ c.NormalIndex := (hn.resolve_left hN).1
    have hnd : ∀ x ∈ intToStr (c.NormalIndex + 1), x ≠ '/' :=
      fun x hx => (isDigit_class (intToStr_nonneg_digits (by omega) x hx)).2.2
    rw [if_pos (by simp [hN]), if_neg (by simp [hT])]
    rw [show intToStr (c.VertexIndex + 1) ++ '/' :: '/' ::
        intToStr (c.NormalIndex + 1) =
        intToStr (c.VertexIndex + 1) ++ '/' :: ([] ++ '/' ::
        intToStr (c.NormalIndex + 1)) from by simp]
    rw [goSplit_sep_cons _ _ hvd, goSplit_sep_cons _ _ (by simp),
      goSplit_nosep _ _ hnd]
    simp [matchInt_intToStr, hN, hT]
  · have hn2 : 0 ≤ c.NormalIndex := (hn.resolve_left hN).1
    have ht2 : 0 ≤ c.TexCoordIndex := (ht.resolve_left hT).1
    have hnd : ∀ x ∈ intToStr (c.NormalIndex + 1), x ≠ '/' :=
      fun x hx => (isDigit_class (intToStr_nonneg_digits (by omega) x hx)).2.2
    have htd : ∀ x ∈ intToStr (c.TexCoordIndex + 1), x ≠ '/' :=
      fun x hx => (isDigit_class (intToStr_nonneg_digits (by omega) x hx)).2.2
    rw [if_pos (by simp [hN]), if_pos (by simp [hT])]
    simp only [List.cons_append, List.append_assoc]
    rw [goSplit_sep_cons _ _ hvd, goSplit_sep_cons _ _ htd,
      goSplit_nosep _ _ hnd]
    have hte : (intToStr (c.TexCoordIndex + 1)).isEmpty = false := by
      simp [List.isEmpty_iff, intToStr_ne_nil]
    simp [matchInt_intToStr, hN, hT, hte]

theorem resolveCorner_roundtrip {lenV lenVN lenVT : Nat} {c : FaceCorner}
    (h : wfCorner lenV lenVN lenVT c) :
    resolveCorner lenV lenVN lenVT ⟨c.VertexIndex + 1,
      (if c.NormalIndex = -1 then -1 else c.NormalIndex + 1),
      (if c.TexCoordIndex = -1 then -1 else c.TexCoordIndex + 1)⟩ = .ok c := by
  obtain ⟨⟨hv0, hvb⟩, hn, ht⟩ := h
  have hv : resolveVertexIdx lenV (c.VertexIndex + 1) = .ok c.VertexIndex := by
    unfold resolveVertexIdx
    rw [if_neg (by omega), if_pos (by omega)]
    simp
  have hnr : resolveNormalIdx lenVN
      (if c.NormalIndex = -1 then -1 else c.NormalIndex + 1) =
      .ok c.NormalIndex := by
    unfold resolveNormalIdx
    by_cases hN : c.NormalIndex = -1
    · rw [if_pos hN, if_neg (by omega), if_neg (by omega), if_neg (by omega), hN]
    · have hn2 : 0 ≤ c.NormalIndex := (hn.resolve_left hN).1
      rw [if_neg hN, if_neg (by omega), if_pos (by omega)]
      simp
  have htr : resolveTexCoordIdx lenVT
      (if c.TexCoordIndex = -1 then -1 else c.TexCoordIndex + 1) =
      .ok c.TexCoordIndex := by
    unfold resolveTexCoordIdx
    by_cases hT : c.TexCoordIndex = -1
    · rw [if_pos hT, if_neg (by omega), if_neg (by omega), if_neg (by omega), hT]
    · have ht2 : 0 ≤ c.TexCoordIndex := (ht.resolve_left hT).1
      rw [if_neg hT, if_neg (by omega), if_pos (by omega)]
      simp
  unfold resolveCorner
  simp only [hv, hnr, htr]
  unfold validateCorner
  rw [if_neg, if_neg, if_neg]
  · rintro ⟨hpos, h0, hge⟩
    have := (ht.resolve_left (by omega)).2 hpos
    omega
  · rintro ⟨hpos, h0, hge⟩
    have := (hn.resolve_left (by omega)).2 hpos
    omega
  · rintro ⟨hpos, hor⟩
    rcases hor with h1 | h1
    · omega
    · have := hvb hpos
      omega

theorem buildCorners_roundtrip {lenV lenVN lenVT : Nat} {cs : List FaceCorner}
    (h : ∀ c ∈ cs, wfCorner lenV lenVN lenVT c) :
    buildCorners lenV lenVN lenVT (cs.map writeCornerTok) = .ok cs := by
  induction cs with
  | nil => rfl
  | cons c cs ih =>
    have hmem := h c (List.mem_cons_self c cs)
    simp only [List.map_cons, buildCorners, writeCornerTok_nosep hmem,
      resolveCorner_roundtrip hmem,
      ih (fun x hx => h x (List.mem_cons_of_mem _ hx))]

theorem getLast?_all_of_forall {p : Char → Bool} {l : Str}
    (h : ∀ c ∈ l, p c = true) : l.getLast?.all p = true := by
  cases hl : l.getLast? with
  | none => rfl
  | some c => simp [h c (List.mem_of_mem_getLast? hl)]

theorem getLast?_all_append {p : Char → Bool} {l2 : Str} (l1 : Str)
    (hne : l2 ≠ []) (h : l2.getLast?.all p = true) :
    (l1 ++ l2).getLast?.all p = true := by
  rw [List.getLast?_append_of_ne_nil l1 hne]
  exact h

theorem getLast?_all_cons {p : Char → Bool} {l2 : Str} (c : Char)
    (hne : l2 ≠ []) (h : l2.getLast?.all p = true) :
    (c :: l2).getLast?.all p = true := by
  rw [show c :: l2 = [c] ++ l2 from rfl]
  exact getLast?_all_append [c] hne h

theorem writeCornerTok_good {lenV lenVN lenVT : Nat} {c : FaceCorner}
    (h : wfCorner lenV lenVN lenVT c) :
    writeCornerTok c ≠ [] ∧
    ∀ ch ∈ writeCornerTok c, isGoSpace ch = false ∧ ch ≠ '#' := by
  obtain ⟨⟨hv0, hvb⟩, hn, ht⟩ := h
  have hvg : ∀ ch ∈ intToStr (c.VertexIndex + 1),
      isGoSpace ch = false ∧ ch ≠ '#' := fun ch hch =>
    ⟨(isDigit_class (intToStr_nonneg_digits (by omega) ch hch)).1,
      (isDigit_class (intToStr_nonneg_digits (by omega) ch hch)).2.1⟩
  unfold writeCornerTok
  by_cases hN : c.NormalIndex = -1 <;> by_cases hT : c.TexCoordIndex = -1
  · rw [if_neg (by simp [hN]), if_neg (by simp [hT])]
    exact ⟨intToStr_ne_nil _, hvg⟩
  · have ht2 : 0 ≤ c.TexCoordIndex := (ht.resolve_left hT).1
    have htg : ∀ ch ∈ intToStr (c.TexCoordIndex + 1),
        isGoSpace ch = false ∧ ch ≠ '#' := fun ch hch =>
      ⟨(isDigit_class (intToStr_nonneg_digits (by omega) ch hch)).1,
        (isDigit_class (intToStr_nonneg_digits (by omega) ch hch)).2.1⟩
    rw [if_neg (by simp [hN]), if_pos (by simp [hT])]
    constructor
    · simp [intToStr_ne_nil]
    · simp only [List.forall_mem_append, List.forall_mem_cons]
      exact ⟨hvg, ⟨by decide, htg⟩⟩
  · have hn2 : 0 ≤ c.NormalIndex := (hn.resolve_left hN).1
    have hng : ∀ ch ∈ intToStr (c.NormalIndex + 1),
        isGoSpace ch = false ∧ ch ≠ '#' := fun ch hch =>
      ⟨(isDigit_class (intToStr_nonneg_digits (by omega) ch hch)).1,
        (isDigit_class (intToStr_nonneg_digits (by omega) ch hch)).2.1⟩
    rw [if_pos (by simp [hN]), if_neg (by simp [hT])]
    constructor
    · simp [intToStr_ne_nil]
    · simp only [List.forall_mem_append, List.forall_mem_cons]
      exact ⟨hvg, ⟨by decide, by decide, hng⟩⟩
  · have hn2 : 0 ≤ c.NormalIndex := (hn.resolve_left hN).1
    have ht2 : 0 ≤ c.TexCoordIndex := (ht.resolve_left hT).1
    have hng : ∀ ch ∈ intToStr (c.NormalIndex + 1),
        isGoSpace ch = false ∧ ch ≠ '#' := fun ch hch =>
      ⟨(isDigit_class (intToStr_nonneg_digits (by omega) ch hch)).1,
        (isDigit_class (intToStr_nonneg_digits (by omega) ch hch)).2.1⟩
    have htg : ∀ ch ∈ intToStr (c.TexCoordIndex + 1),
        isGoSpace ch = false ∧ ch ≠ '#' := fun ch hch =>
      ⟨(isDigit_class (intToStr_nonneg_digits (by omega) ch hch)).1,
        (isDigit_class (intToStr_nonneg_digits (by omega) ch hch)).2.1⟩
    rw [if_pos (by simp [hN]), if_pos (by simp [hT])]
    constructor
    · simp [intToStr_ne_nil]
    · simp only [List.cons_append, List.append_assoc, List.forall_mem_append,
        List.forall_mem_cons]
      exact ⟨hvg, ⟨by decide, htg, by decide, hng⟩⟩

theorem readLinesAux_append (M : FloatModel) (opts : ReadOptions)
    (l1 : List Str) : ∀ (l2 : List Str) (i : Nat) (st st1 : ObjBuffer M.Flt),
    readLinesAux M opts l1 i st = .ok st1 →
    readLinesAux M opts (l1 ++ l2) i st =
      readLinesAux M opts l2 (i + l1.length) st1 := by
  induction l1 with
  | nil =>
    intro l2 i st st1 h
    simp only [readLinesAux] at h
    injection h with h
    subst h
    simp
  | cons a l1 ih =>
    intro l2 i st st1 h
    simp only [readLinesAux, List.cons_append, List.append_eq] at h ⊢
    cases hp : processOneLine M opts st a with
    | ok st2 =>
      simp only [hp] at h ⊢
      rw [ih l2 (i + 1) st2 st1 h]
      congr 1
      simp only [List.length_cons]
      omega
    | error e =>
      simp only [hp] at h
      exact absurd h (by simp)

theorem processOneLine_vec3 (M : FloatModel) (opts : ReadOptions)
    (st : ObjBuffer M.Flt) (v : Vec3 M.Flt)
    (hparse : ∀ x, M.parse (M.fmt x) = some x)
    (hfmt : ∀ x, M.fmt x ≠ [] ∧
      ∀ ch ∈ M.fmt x, isGoSpace ch = false ∧ ch ≠ '#') :
    processOneLine M opts st (writeVec3Line M.fmt "v".data v) =
      .ok { st with V := st.V ++ [v] } := by
  have hf1 := hfmt v.1
  have hf2 := hfmt v.2.1
  have hf3 := hfmt v.2.2
  have hline : writeVec3Line M.fmt "v".data v = "v".data ++
      ([M.fmt v.1, M.fmt v.2.1, M.fmt v.2.2].map (fun t => ' ' :: t)).flatten := by
    simp [writeVec3Line]
  have htoks : ∀ t ∈ [M.fmt v.1, M.fmt v.2.1, M.fmt v.2.2],
      t ≠ [] ∧ ∀ ch ∈ t, isGoSpace ch = false := by
    intro t hti
    simp only [List.mem_cons, List.mem_singleton, List.not_mem_nil, or_false] at hti
    rcases hti with rfl | rfl | rfl
    exacts [⟨hf1.1, fun ch hc => (hf1.2 ch hc).1⟩,
      ⟨hf2.1, fun ch hc => (hf2.2 ch hc).1⟩,
      ⟨hf3.1, fun ch hc => (hf3.2 ch hc).1⟩]
  have hfields : goFields (writeVec3Line M.fmt "v".data v) =
      "v".data :: [M.fmt v.1, M.fmt v.2.1, M.fmt v.2.2] := by
    rw [hline]
    exact goFields_keyword_tokens _ (by decide) (by decide) _ htoks
  have hh : (writeVec3Line M.fmt "v".data v).head?.all
      (fun c => !isGoSpace c) = true := by
    simp [writeVec3Line, isGoSpace]
  have hl : (writeVec3Line M.fmt "v".data v).getLast?.all
      (fun c => !isGoSpace c) = true := by
    unfold writeVec3Line
    refine getLast?_all_append _ (by simp) ?_
    refine getLast?_all_cons _ (by simp [hf1.1]) ?_
    refine getLast?_all_append _ (by simp) ?_
    refine getLast?_all_cons _ (by simp [hf2.1]) ?_
    refine getLast?_all_append _ (by simp) ?_
    refine getLast?_all_cons _ hf3.1 ?_
    exact getLast?_all_of_forall (fun ch hc => by simp [(hf3.2 ch hc).1])
  have hchars : ∀ ch ∈ writeVec3Line M.fmt "v".data v, ch ≠ '#' := by
    unfold writeVec3Line
    rw [List.forall_mem_append]
    refine ⟨by decide, ?_⟩
    rw [List.forall_mem_cons]
    refine ⟨by decide, ?_⟩
    rw [List.forall_mem_append]
    refine ⟨fun ch hc => (hf1.2 ch hc).2, ?_⟩
    rw [List.forall_mem_cons]
    refine ⟨by decide, ?_⟩
    rw [List.forall_mem_append]
    refine ⟨fun ch hc => (hf2.2 ch hc).2, ?_⟩
    rw [List.forall_mem_cons]
    exact ⟨by decide, fun ch hc => (hf3.2 ch hc).2⟩
  have hne : (writeVec3Line M.fmt "v".data v).isEmpty = false := by
    simp [writeVec3Line]
  simp only [processOneLine, goTrimSpace_eq_self hh hl,
    commentStrip_eq_self hchars, hne, hfields]
  have hkw : goToLower ("v".data) = "v".data := by decide
  rw [hkw, if_neg (by decide), if_pos rfl]
  simp only [processVertex, List.length_cons, List.length_nil]
  rw [if_neg (by simp)]
  simp only [List.getD_cons_zero, List.getD_cons_succ, hparse]
  rfl

theorem processOneLine_vn (M : FloatModel) (opts : ReadOptions)
    (st : ObjBuffer M.Flt) (v : Vec3 M.Flt)
    (hparse : ∀ x, M.parse (M.fmt x) = some x)
    (hfmt : ∀ x, M.fmt x ≠ [] ∧
      ∀ ch ∈ M.fmt x, isGoSpace ch = false ∧ ch ≠ '#') :
    processOneLine M opts st (writeVec3Line M.fmt "vn".data v) =
      .ok { st with VN := st.VN ++ [v] } := by
  have hf1 := hfmt v.1
  have hf2 := hfmt v.2.1
  have hf3 := hfmt v.2.2
  have hline : writeVec3Line M.fmt "vn".data v = "vn".data ++
      ([M.fmt v.1, M.fmt v.2.1, M.fmt v.2.2].map (fun t => ' ' :: t)).flatten := by
    simp [writeVec3Line]
  have htoks : ∀ t ∈ [M.fmt v.1, M.fmt v.2.1, M.fmt v.2.2],
      t ≠ [] ∧ ∀ ch ∈ t, isGoSpace ch = false := by
    intro t hti
    simp only [List.mem_cons, List.mem_singleton, List.not_mem_nil, or_false] at hti
    rcases hti with rfl | rfl | rfl
    exacts [⟨hf1.1, fun ch hc => (hf1.2 ch hc).1⟩,
      ⟨hf2.1, fun ch hc => (hf2.2 ch hc).1⟩,
      ⟨hf3.1, fun ch hc => (hf3.2 ch hc).1⟩]
  have hfields : goFields (writeVec3Line M.fmt "vn".data v) =
      "vn".data :: [M.fmt v.1, M.fmt v.2.1, M.fmt v.2.2] := by
    rw [hline]
    exact goFields_keyword_tokens _ (by decide) (by decide) _ htoks
  have hh : (writeVec3Line M.fmt "vn".data v).head?.all
      (fun c => !isGoSpace c) = true := by
    simp [writeVec3Line, isGoSpace]
  have hl : (writeVec3Line M.fmt "vn".data v).getLast?.all
      (fun c => !isGoSpace c) = true := by
    unfold writeVec3Line
    refine getLast?_all_append _ (by simp) ?_
    refine getLast?_all_cons _ (by simp [hf1.1]) ?_
    refine getLast?_all_append _ (by simp) ?_
    refine getLast?_all_cons _ (by simp [hf2.1]) ?_
    refine getLast?_all_append _ (by simp) ?_
    refine getLast?_all_cons _ hf3.1 ?_
    exact getLast?_all_of_forall (fun ch hc => by simp [(hf3.2 ch hc).1])
  have hchars : ∀ ch ∈ writeVec3Line M.fmt "vn".data v, ch ≠ '#' := by
    unfold writeVec3Line
    rw [List.forall_mem_append]
    refine ⟨by decide, ?_⟩
    rw [List.forall_mem_cons]
    refine ⟨by decide, ?_⟩
    rw [List.forall_mem_append]
    refine ⟨fun ch hc => (hf1.2 ch hc).2, ?_⟩
    rw [List.forall_mem_cons]
    refine ⟨by decide, ?_⟩
    rw [List.forall_mem_append]
    refine ⟨fun ch hc => (hf2.2 ch hc).2, ?_⟩
    rw [List.forall_mem_cons]
    exact ⟨by decide, fun ch hc => (hf3.2 ch hc).2⟩
  have hne : (writeVec3Line M.fmt "vn".data v).isEmpty = false := by
    simp [writeVec3Line]
  simp only [processOneLine, goTrimSpace_eq_self hh hl,
    commentStrip_eq_self hchars, hne, hfields]
  have hkw : goToLower ("vn".data) = "vn".data := by decide
  rw [hkw, if_neg (by decide), if_neg (by decide), if_pos rfl]
  simp only [processVertexNormal, List.length_cons, List.length_nil]
  rw [if_neg (by simp)]
  simp only [List.getD_cons_zero, List.getD_cons_succ, hparse]
  rfl

theorem processOneLine_vt (M : FloatModel) (opts : ReadOptions)
    (st : ObjBuffer M.Flt) (v : Vec2 M.Flt)
    (hparse : ∀ x, M.parse (M.fmt x) = some x)
    (hfmt : ∀ x, M.fmt x ≠ [] ∧
      ∀ ch ∈ M.fmt x, isGoSpace ch = false ∧ ch ≠ '#') :
    processOneLine M opts st (writeVec2Line M.fmt "vt".data v) =
      .ok { st with VT := st.VT ++ [v] } := by
  have hf1 := hfmt v.1
  have hf2 := hfmt v.2
  have hline : writeVec2Line M.fmt "vt".data v = "vt".data ++
      ([M.fmt v.1, M.fmt v.2].map (fun t => ' ' :: t)).flatten := by
    simp [writeVec2Line]
  have htoks : ∀ t ∈ [M.fmt v.1, M.fmt v.2],
      t ≠ [] ∧ ∀ ch ∈ t, isGoSpace ch = false := by
    intro t hti
    simp only [List.mem_cons, List.mem_singleton, List.not_mem_nil, or_false] at hti
    rcases hti with rfl | rfl
    exacts [⟨hf1.1, fun ch hc => (hf1.2 ch hc).1⟩,
      ⟨hf2.1, fun ch hc => (hf2.2 ch hc).1⟩]
  have hfields : goFields (writeVec2Line M.fmt "vt".data v) =
      "vt".data :: [M.fmt v.1, M.fmt v.2] := by
    rw [hline]
    exact goFields_keyword_tokens _ (by decide) (by decide) _ htoks
  have hh : (writeVec2Line M.fmt "vt".data v).head?.all
      (fun c => !isGoSpace c) = true := by
    simp [writeVec2Line, isGoSpace]
  have hl : (writeVec2Line M.fmt "vt".data v).getLast?.all
      (fun c => !isGoSpace c) = true := by
    unfold writeVec2Line
    refine getLast?_all_append _ (by simp) ?_
    refine getLast?_all_cons _ (by simp [hf1.1]) ?_
    refine getLast?_all_append _ (by simp) ?_
    refine getLast?_all_cons _ hf2.1 ?_
    exact getLast?_all_of_forall (fun ch hc => by simp [(hf2.2 ch hc).1])
  have hchars : ∀ ch ∈ writeVec2Line M.fmt "vt".data v, ch ≠ '#' := by
    unfold writeVec2Line
    rw [List.forall_mem_append]
    refine ⟨by decide, ?_⟩
    rw [List.forall_mem_cons]
    refine ⟨by decide, ?_⟩
    rw [List.forall_mem_append]
    refine ⟨fun ch hc => (hf1.2 ch hc).2, ?_⟩
    rw [List.forall_mem_cons]
    exact ⟨by decide, fun ch hc => (hf2.2 ch hc).2⟩
  have hne : (writeVec2Line M.fmt "vt".data v).isEmpty = false := by
    simp [writeVec2Line]
  simp only [processOneLine, goTrimSpace_eq_self hh hl,
    commentStrip_eq_self hchars, hne, hfields]
  have hkw : goToLower ("vt".data) = "vt".data := by decide
  rw [hkw, if_pos rfl]
  simp only [processVertexTexCoord, List.length_cons, List.length_nil]
  rw [if_neg (by simp)]
  simp only [List.getD_cons_zero, List.getD_cons_succ, hparse]
  rfl

theorem readLines_vblock (M : FloatModel) (opts : ReadOptions)
    (hparse : ∀ x, M.parse (M.fmt x) = some x)
    (hfmt : ∀ x, M.fmt x ≠ [] ∧
      ∀ ch ∈ M.fmt x, isGoSpace ch = false ∧ ch ≠ '#')
    (vs : List (Vec3 M.Flt)) : ∀ (i : Nat) (st : ObjBuffer M.Flt),
    readLinesAux M opts (vs.map (writeVec3Line M.fmt "v".data)) i st =
      .ok { st with V := st.V ++ vs } := by
  induction vs with
  | nil =>
    intro i st
    simp [readLinesAux]
  | cons v vs ih =>
    intro i st
    simp only [List.map_cons, readLinesAux,
      processOneLine_vec3 M opts st v hparse hfmt]
    rw [ih (i + 1) { st with V := st.V ++ [v] }]
    simp

theorem readLines_vnblock (M : FloatModel) (opts : ReadOptions)
    (hparse : ∀ x, M.parse (M.fmt x) = some x)
    (hfmt : ∀ x, M.fmt x ≠ [] ∧
      ∀ ch ∈ M.fmt x, isGoSpace ch = false ∧ ch ≠ '#')
    (vs : List (Vec3 M.Flt)) : ∀ (i : Nat) (st : ObjBuffer M.Flt),
    readLinesAux M opts (vs.map (writeVec3Line M.fmt "vn".data)) i st =
      .ok { st with VN := st.VN ++ vs } := by
  induction vs with
  | nil =>
    intro i st
    simp [readLinesAux]
  | cons v vs ih =>
    intro i st
    simp only [List.map_cons, readLinesAux,
      processOneLine_vn M opts st v hparse hfmt]
    rw [ih (i + 1) { st with VN := st.VN ++ [v] }]
    simp

theorem readLines_vtblock (M : FloatModel) (opts : ReadOptions)
    (hparse : ∀ x, M.parse (M.fmt x) = some x)
    (hfmt : ∀ x, M.fmt x ≠ [] ∧
      ∀ ch ∈ M.fmt x, isGoSpace ch = false ∧ ch ≠ '#')
    (vs : List (Vec2 M.Flt)) : ∀ (i : Nat) (st : ObjBuffer M.Flt),
    readLinesAux M opts (vs.map (writeVec2Line M.fmt "vt".data)) i st =
      .ok { st with VT := st.VT ++ vs } := by
  induction vs with
  | nil =>
    intro i st
    simp [readLinesAux]
  | cons v vs ih =>
    intro i st
    simp only [List.map_cons, readLinesAux,
      processOneLine_vt M opts st v hparse hfmt]
    rw [ih (i + 1) { st with VT := st.VT ++ [v] }]
    simp

theorem processOneLine_mtllib (M : FloatModel) (opts : ReadOptions)
    (st : ObjBuffer M.Flt) (mtl : Str) (hgood : goodName mtl)
    (hmne : mtl ≠ []) (hst : st.MTL = []) :
    processOneLine M opts st ("mtllib ".data ++ mtl) =
      .ok { st with MTL := mtl } := by
  obtain ⟨hnh, hhd, hlast⟩ := hgood
  have hh : ("mtllib ".data ++ mtl).head?.all (fun c => !isGoSpace c) = true := by
    simp [isGoSpace]
  have hl : ("mtllib ".data ++ mtl).getLast?.all (fun c => !isGoSpace c) = true :=
    getLast?_all_append _ hmne hlast
  have hchars : ∀ ch ∈ "mtllib ".data ++ mtl, ch ≠ '#' := by
    rw [List.forall_mem_append]
    exact ⟨by decide, fun ch hc => (hnh ch hc).1⟩
  have hne : ("mtllib ".data ++ mtl).isEmpty = false := by simp
  have hsplit : "mtllib ".data ++ mtl = "mtllib".data ++ ' ' :: mtl := rfl
  have hfirst : ∃ rest, goFields ("mtllib ".data ++ mtl) = "mtllib".data :: rest := by
    rw [hsplit, goFields_token_cons _ (by decide) (by decide)]
    exact ⟨goFields mtl, rfl⟩
  obtain ⟨rest, hfields⟩ := hfirst
  simp only [processOneLine, goTrimSpace_eq_self hh hl,
    commentStrip_eq_self hchars, hne, hfields]
  have hkw : goToLower ("mtllib".data) = "mtllib".data := by decide
  rw [hkw, if_neg (by decide), if_neg (by decide), if_neg (by decide),
    if_neg (by decide), if_neg (by decide), if_neg (by decide), if_pos rfl]
  unfold processMaterialLibrary
  rw [hst]
  simp only [ne_eq, eq_self_iff_true, not_true_eq_false, if_false]
  have hpre : ("mtllib".data).isPrefixOf ("mtllib ".data ++ mtl) = true := by
    rw [hsplit, List.isPrefixOf_iff_prefix]
    exact List.prefix_append _ _
  have hdrop : ("mtllib ".data ++ mtl).drop ("mtllib".data).length = ' ' :: mtl := by
    rw [hsplit, List.drop_left]
  unfold keywordSpaceMatch
  rw [if_pos hpre]
  simp only [hdrop]
  simp only [show isReSpace ' ' = true from rfl, if_true]
  have hdw : (' ' :: mtl).dropWhile isReSpace = mtl := by
    rw [List.dropWhile_cons]
    rw [if_pos (by decide)]
    exact dropWhile_eq_self_of_head hhd
  have hcontains : mtl.contains '\n' = false := by
    simp [List.contains]
    intro hmem
    exact absurd rfl ((hnh '\n' hmem).2)
  rw [hdw, hcontains]
  simp

theorem forall_mem_space_tokens {P : Char → Prop} (toks : List Str)
    (hsp : P ' ') (h : ∀ t ∈ toks, ∀ c ∈ t, P c) :
    ∀ c ∈ (toks.map (fun t => ' ' :: t)).flatten, P c := by
  intro c hc
  rw [List.mem_flatten] at hc
  obtain ⟨l, hl, hcl⟩ := hc
  rw [List.mem_map] at hl
  obtain ⟨t, ht, rfl⟩ := hl
  rcases List.mem_cons.mp hcl with rfl | hcl2
  · exact hsp
  · exact h t ht c hcl2

theorem getLast?_all_space_tokens {p : Char → Bool} (toks : List Str)
    (hne : toks ≠ []) (h : ∀ t ∈ toks, t ≠ [] ∧ ∀ c ∈ t, p c = true) :
    ((toks.map (fun t => ' ' :: t)).flatten).getLast?.all p = true := by
  induction toks with
  | nil => simp at hne
  | cons t ts ih =>
    cases ts with
    | nil =>
      simp only [List.map_cons, List.map_nil, List.flatten_cons,
        List.flatten_nil, List.append_nil]
      exact getLast?_all_cons _ (h t (by simp)).1
        (getLast?_all_of_forall (h t (by simp)).2)
    | cons t2 ts2 =>
      have ih2 := ih (by simp) (fun x hx => h x (List.mem_cons_of_mem _ hx))
      rw [List.map_cons, List.flatten_cons]
      refine getLast?_all_append _ ?_ ih2
      simp

theorem processOneLine_gline (M : FloatModel) (opts : ReadOptions)
    (st : ObjBuffer M.Flt) (name : Str) (hgood : goodName name) :
    processOneLine M opts st ("g ".data ++ name) =
      .ok (startGroup (endGroup st) name) := by
  obtain ⟨hnh, hhd, hlast⟩ := hgood
  by_cases hn0 : name = []
  · subst hn0
    rw [List.append_nil]
    have h1 : goTrimSpace ("g ".data) = "g".data := by decide
    have h2 : commentStrip ("g".data) = "g".data := by decide
    have h3 : goFields ("g".data) = ["g".data] := by decide
    have h4 : groupMatch ("g".data) = some [] := by decide
    simp only [processOneLine, h1, h2, h3,
      show (("g".data : Str)).isEmpty = false from rfl]
    have hkw : goToLower ("g".data) = "g".data := by decide
    rw [hkw, if_neg (show ¬(("g".data : Str) = "vt".data) by decide),
      if_neg (show ¬(("g".data : Str) = "v".data) by decide),
      if_neg (show ¬(("g".data : Str) = "vn".data) by decide),
      if_neg (show ¬(("g".data : Str) = "f".data) by decide),
      if_neg (show ¬(("g".data : Str) = "l".data) by decide),
      if_pos (show ("g".data : Str) = "g".data from rfl)]
    simp only [processGroup, h4]
    simp
  · have hsplit : "g ".data ++ name = "g".data ++ ' ' :: name := rfl
    have hh : ("g ".data ++ name).head?.all (fun c => !isGoSpace c) = true := by
      simp [isGoSpace]
    have hl : ("g ".data ++ name).getLast?.all (fun c => !isGoSpace c) = true :=
      getLast?_all_append _ hn0 hlast
    have hchars : ∀ ch ∈ "g ".data ++ name, ch ≠ '#' := by
      rw [List.forall_mem_append]
      exact ⟨by decide, fun ch hc => (hnh ch hc).1⟩
    have hne : ("g ".data ++ name).isEmpty = false := by simp
    have hfirst : ∃ rest, goFields ("g ".data ++ name) = "g".data :: rest := by
      rw [hsplit, goFields_token_cons _ (by decide) (by decide)]
      exact ⟨goFields name, rfl⟩
    obtain ⟨rest, hfields⟩ := hfirst
    have hdw : (' ' :: name).dropWhile isReSpace = name := by
      rw [List.dropWhile_cons, if_pos (by decide)]
      exact dropWhile_eq_self_of_head hhd
    have hcontains : name.contains '\n' = false := by
      simp [List.contains]
      intro hmem
      exact absurd rfl ((hnh '\n' hmem).2)
    have hgm : groupMatch ("g ".data ++ name) = some name := by
      rw [show "g ".data ++ name = 'g' :: ' ' :: name from rfl]
      simp only [groupMatch]
      rw [hdw, hcontains]
      simp
    simp only [processOneLine, goTrimSpace_eq_self hh hl,
      commentStrip_eq_self hchars, hne, hfields]
    have hkw : goToLower ("g".data) = "g".data := by decide
    rw [hkw, if_neg (show ¬(("g".data : Str) = "vt".data) by decide),
      if_neg (show ¬(("g".data : Str) = "v".data) by decide),
      if_neg (show ¬(("g".data : Str) = "vn".data) by decide),
      if_neg (show ¬(("g".data : Str) = "f".data) by decide),
      if_neg (show ¬(("g".data : Str) = "l".data) by decide),
      if_pos (show ("g".data : Str) = "g".data from rfl)]
    simp only [processGroup, hgm]
    simp

theorem processOneLine_fline (M : FloatModel) (opts : ReadOptions)
    (hopts : opts.DiscardDegeneratedFaces = false)
    (st : ObjBuffer M.Flt) (f : Face)
    (hwf : wfFace st.V.length st.VN.length st.VT.length f) :
    processOneLine M opts st (writeFaceLine f) =
      .ok { st with F := st.F ++ [⟨f.Corners, st.activeMaterial⟩] } := by
  obtain ⟨hlen, hcs⟩ := hwf
  have hcne : f.Corners ≠ [] := by
    intro h0
    rw [h0] at hlen
    simp at hlen
  have htoks : ∀ t ∈ f.Corners.map writeCornerTok,
      t ≠ [] ∧ ∀ ch ∈ t, isGoSpace ch = false := by
    intro t ht
    rw [List.mem_map] at ht
    obtain ⟨c, hc, rfl⟩ := ht
    exact ⟨(writeCornerTok_good (hcs c hc)).1,
      fun ch hch => ((writeCornerTok_good (hcs c hc)).2 ch hch).1⟩
  have hline : writeFaceLine f = "f".data ++
      ((f.Corners.map writeCornerTok).map (fun t => ' ' :: t)).flatten := by
    simp only [writeFaceLine, List.map_map]
    rfl
  have hfields : goFields (writeFaceLine f) =
      "f".data :: f.Corners.map writeCornerTok := by
    rw [hline]
    exact goFields_keyword_tokens _ (by decide) (by decide) _ htoks
  have hh : (writeFaceLine f).head?.all (fun c => !isGoSpace c) = true := by
    simp [writeFaceLine, isGoSpace]
  have hl : (writeFaceLine f).getLast?.all (fun c => !isGoSpace c) = true := by
    rw [hline]
    refine getLast?_all_append _ ?_ ?_
    · intro hfl
      rw [List.flatten_eq_nil_iff] at hfl
      have : (' ' :: writeCornerTok (f.Corners.get ⟨0, by omega⟩)) ∈
          (f.Corners.map writeCornerTok).map (fun t => ' ' :: t) := by
        rw [List.mem_map]
        exact ⟨_, List.mem_map_of_mem _ (f.Corners.get_mem _ _), rfl⟩
      exact absurd (hfl _ this) (by simp)
    · exact getLast?_all_space_tokens _ (by simp [hcne])
        (fun t ht => ⟨(htoks t ht).1, fun c hc => by simp [(htoks t ht).2 c hc]⟩)
  have hchars : ∀ ch ∈ writeFaceLine f, ch ≠ '#' := by
    rw [hline, List.forall_mem_append]
    refine ⟨by decide, ?_⟩
    refine forall_mem_space_tokens _ (by decide) ?_
    intro t ht c hc
    rw [List.mem_map] at ht
    obtain ⟨c0, hc0, rfl⟩ := ht
    exact ((writeCornerTok_good (hcs c0 hc0)).2 c hc).2
  have hne : (writeFaceLine f).isEmpty = false := by
    simp [writeFaceLine]
  simp only [processOneLine, goTrimSpace_eq_self hh hl,
    commentStrip_eq_self hchars, hne, hfields]
  have hkw : goToLower ("f".data) = "f".data := by decide
  rw [hkw, if_neg (show ¬(("f".data : Str) = "vt".data) by decide),
    if_neg (show ¬(("f".data : Str) = "v".data) by decide),
    if_neg (show ¬(("f".data : Str) = "vn".data) by decide),
    if_pos (show ("f".data : Str) = "f".data from rfl)]
  unfold processFace
  rw [if_neg (show ¬((f.Corners.map writeCornerTok).length < 3) from by
    rw [List.length_map]; omega)]
  have hacc : isFaceAccepted opts ⟨f.Corners, st.activeMaterial⟩ = true := by
    simp [isFaceAccepted, hopts]
  simp only [buildCorners_roundtrip hcs, hacc, if_true]
  simp

theorem endGroup_frame {α : Type} (st : ObjBuffer α) :
    (endGroup st).activeMaterial = st.activeMaterial ∧
    (endGroup st).MTL = st.MTL ∧ (endGroup st).V = st.V ∧
    (endGroup st).VN = st.VN ∧ (endGroup st).VT = st.VT ∧
    (endGroup st).F = st.F := by
  simp only [endGroup]
  split_ifs <;> exact ⟨rfl, rfl, rfl, rfl, rfl, rfl⟩

theorem sliceFaces_some {F0 : List Face} {first count : Int} {fs : List Face}
    (h : sliceFaces F0 first count = some fs) :
    (∀ f ∈ fs, f ∈ F0) ∧
    ((count ≤ 0 ∧ fs = []) ∨ (0 < count ∧ (fs.length : Int) = count)) := by
  unfold sliceFaces at h
  split_ifs at h with h1 h2
  · injection h with h
    subst h
    exact ⟨by simp, .inl ⟨h1, rfl⟩⟩
  · injection h with h
    subst h
    constructor
    · intro f hf
      exact List.mem_of_mem_drop (List.mem_of_mem_take hf)
    · refine .inr ⟨by omega, ?_⟩
      rw [List.length_take, List.length_drop]
      omega

theorem readLines_faces (M : FloatModel) (opts : ReadOptions)
    (hopts : opts.DiscardDegeneratedFaces = false) (fs : List Face) :
    ∀ (i : Nat) (st : ObjBuffer M.Flt),
    (∀ f ∈ fs, wfFace st.V.length st.VN.length st.VT.length f) →
    readLinesAux M opts (fs.map writeFaceLine) i st =
      .ok { st with F := st.F ++ fs.map (fun f => ⟨f.Corners, st.activeMaterial⟩) } := by
  induction fs with
  | nil =>
    intro i st hwf
    simp [readLinesAux]
  | cons f fs ih =>
    intro i st hwf
    have h1 := processOneLine_fline M opts hopts st f (hwf f (by simp))
    simp only [List.map_cons, readLinesAux, h1]
    rw [ih (i + 1) { st with F := st.F ++ [⟨f.Corners, st.activeMaterial⟩] }
      (fun x hx => hwf x (List.mem_cons_of_mem _ hx))]
    simp

theorem endGroup_close {α : Type} (st : ObjBuffer α) (G0 : List Group)
    (name : Str) (first : Int) (hG : st.G = G0 ++ [⟨name, first, -1⟩]) :
    (endGroup st).G = if (st.F.length : Int) - first > 0
      then G0 ++ [⟨name, first, (st.F.length : Int) - first⟩] else G0 := by
  simp only [endGroup]
  rw [hG]
  rw [if_pos (by simp)]
  rw [List.getLast?_concat]
  simp only [Option.getD_some]
  rw [List.dropLast_concat]
  split_ifs with hc
  · rfl
  · rfl

theorem readLines_groups (M : FloatModel) (opts : ReadOptions)
    (hopts : opts.DiscardDegeneratedFaces = false) (F0 : List Face) :
    ∀ (gs : List Group),
    (∀ g ∈ gs, goodName g.Name ∧ 0 ≤ g.FaceCount) →
    ∀ (gl : List Str), writeGroupsLines F0 gs = some gl →
    ∀ (i : Nat) (st : ObjBuffer M.Flt),
    st.activeMaterial = [] →
    (∀ f ∈ F0, wfFace st.V.length st.VN.length st.VT.length f) →
    ∃ st2, readLinesAux M opts gl i st = .ok st2 ∧
      st2.activeMaterial = [] ∧ st2.V = st.V ∧ st2.VN = st.VN ∧
      st2.VT = st.VT ∧ st2.MTL = st.MTL ∧
      (endGroup st2).G.map (fun g => (g.Name, g.FaceCount)) =
        (endGroup st).G.map (fun g => (g.Name, g.FaceCount)) ++
          (gs.filter (fun g => 0 < g.FaceCount)).map
            (fun g => (g.Name, g.FaceCount)) := by
  intro gs
  induction gs with
  | nil =>
    intro _hw gl hgl i st hmat hwf
    simp only [writeGroupsLines] at hgl
    injection hgl with hgl
    subst hgl
    exact ⟨st, by simp [readLinesAux], hmat, rfl, rfl, rfl, rfl, by simp⟩
  | cons g gs ih =>
    intro hw gl hgl i st hmat hwf
    simp only [writeGroupsLines] at hgl
    cases hg1 : writeGroupLines F0 g with
    | none =>
      rw [hg1] at hgl
      exact absurd hgl (by simp)
    | some l1 =>
      cases hg2 : writeGroupsLines F0 gs with
      | none =>
        rw [hg1, hg2] at hgl
        exact absurd hgl (by simp)
      | some l2 =>
        rw [hg1, hg2] at hgl
        injection hgl with hgl
        subst hgl
        unfold writeGroupLines at hg1
        cases hsl : sliceFaces F0 g.FirstFaceIndex g.FaceCount with
        | none =>
          rw [hsl] at hg1
          exact absurd hg1 (by simp)
        | some fs =>
          rw [hsl] at hg1
          injection hg1 with hg1
          subst hg1
          obtain ⟨hfsF, hcnt⟩ := sliceFaces_some hsl
          obtain ⟨hgood, hcnt0⟩ := hw g (by simp)
          have hstep := processOneLine_gline M opts st g.Name hgood
          obtain ⟨ham1, hmtl1, hV1, hVN1, hVT1, hF1⟩ := endGroup_frame st
          set st1 := startGroup (endGroup st) g.Name with hst1
          have hwf1 : ∀ f ∈ fs, wfFace st1.V.length st1.VN.length
              st1.VT.length f := by
            intro f hf
            have h2 := hwf f (hfsF f hf)
            simp only [hst1, startGroup, hV1, hVN1, hVT1]
            exact h2
          have hfb := readLines_faces M opts hopts fs (i + 1) st1 hwf1
          set st2' : ObjBuffer M.Flt := { st1 with
            F := st1.F ++ fs.map (fun f => ⟨f.Corners, st1.activeMaterial⟩) }
            with hst2'
          have hchain1 : readLinesAux M opts
              (("g ".data ++ g.Name) :: fs.map writeFaceLine) i st =
              .ok st2' := by
            simp only [readLinesAux, hstep]
            exact hfb
          have hchain := readLinesAux_append M opts
            (("g ".data ++ g.Name) :: fs.map writeFaceLine) l2 i st st2' hchain1
          have ham2 : st2'.activeMaterial = [] := by
            simp only [hst2', hst1, startGroup]
            simp only [ham1]
            exact hmat
          have hwf2 : ∀ f ∈ F0, wfFace st2'.V.length st2'.VN.length
              st2'.VT.length f := by
            intro f hf
            have h2 := hwf f hf
            simp only [hst2', hst1, startGroup, hV1, hVN1, hVT1]
            exact h2
          obtain ⟨st3, hrun3, ham3, hV3, hVN3, hVT3, hMTL3, hG3⟩ :=
            ih (fun x hx => hw x (List.mem_cons_of_mem _ hx)) l2 hg2
              (i + (("g ".data ++ g.Name) :: fs.map writeFaceLine).length)
              st2' ham2 hwf2
          have hG2' : st2'.G = (endGroup st).G ++
              [⟨g.Name, ((endGroup st).F.length : Int), -1⟩] := by
            simp [hst2', hst1, startGroup]
          have hF2' : st2'.F.length = st.F.length + fs.length := by
            simp [hst2', hst1, startGroup, hF1]
          have hclose := endGroup_close st2' _ _ _ hG2'
          rw [hF1] at hclose
          have hflen : (st2'.F.length : Int) - (st.F.length : Int) =
              (fs.length : Int) := by
            rw [hF2']
            push_cast
            ring
          refine ⟨st3, ?_, ham3, ?_, ?_, ?_, ?_, ?_⟩
          · rw [hchain]
            exact hrun3
          · rw [hV3]
            simp [hst2', hst1, startGroup, hV1]
          · rw [hVN3]
            simp [hst2', hst1, startGroup, hVN1]
          · rw [hVT3]
            simp [hst2', hst1, startGroup, hVT1]
          · rw [hMTL3]
            simp [hst2', hst1, startGroup, hmtl1]
          · rw [hG3]
            have hkey : (endGroup st2').G.map (fun g => (g.Name, g.FaceCount)) =
                (endGroup st).G.map (fun g => (g.Name, g.FaceCount)) ++
                  (if 0 < g.FaceCount then [(g.Name, g.FaceCount)] else []) := by
              rw [hclose]
              rcases hcnt with ⟨hle, rfl⟩ | ⟨hlt, hlen⟩
              · have hc0 : g.FaceCount = 0 := by omega
                rw [if_neg (by rw [hflen]; simp)]
                rw [if_neg (by omega)]
                simp
              · have hcpos : (st2'.F.length : Int) - (st.F.length : Int) > 0 := by
                  rw [hflen]
                  omega
                rw [if_pos hcpos, if_pos (by omega)]
                rw [List.map_append]
                congr 1
                simp only [List.map_cons, List.map_nil]
                congr 2
                rw [hflen, hlen]
            rw [hkey, List.filter_cons]
            by_cases hpos : 0 < g.FaceCount
            · rw [if_pos hpos]
              simp only [hpos, decide_True, if_true, List.map_cons]
              simp [List.append_assoc]
            · rw [if_neg hpos]
              simp only [hpos, decide_False, if_false]
              simp

theorem writeGroupsLines_total (F0 : List Face) :
    ∀ gs : List Group, (∀ g ∈ gs, 0 ≤ g.FaceCount ∧ (0 < g.FaceCount →
      0 ≤ g.FirstFaceIndex ∧ g.FirstFaceIndex + g.FaceCount ≤ (F0.length : Int))) →
    ∃ gl, writeGroupsLines F0 gs = some gl := by
  intro gs
  induction gs with
  | nil => exact fun _ => ⟨[], rfl⟩
  | cons g gs ih =>
    intro h
    obtain ⟨gl2, hgl2⟩ := ih (fun x hx => h x (List.mem_cons_of_mem _ hx))
    have hg := h g (by simp)
    have hl1 : ∃ l1, writeGroupLines F0 g = some l1 := by
      unfold writeGroupLines sliceFaces
      by_cases hc : g.FaceCount ≤ 0
      · rw [if_pos hc]
        exact ⟨_, rfl⟩
      · rw [if_neg hc, if_pos ⟨(hg.2 (by omega)).1, (hg.2 (by omega)).2⟩]
        exact ⟨_, rfl⟩
    obtain ⟨l1, hl1⟩ := hl1
    refine ⟨l1 ++ gl2, ?_⟩
    simp only [writeGroupsLines, hl1, hgl2]

theorem finishFaceGroups_frame {α : Type} (st : ObjBuffer α) :
    (finishFaceGroups st).V = st.V ∧ (finishFaceGroups st).VN = st.VN ∧
    (finishFaceGroups st).VT = st.VT ∧ (finishFaceGroups st).MTL = st.MTL ∧
    (finishFaceGroups st).G = st.G := by
  simp only [finishFaceGroups]
  split_ifs <;> exact ⟨rfl, rfl, rfl, rfl, rfl⟩

theorem processOneLine_hash_append (M : FloatModel) (opts : ReadOptions)
    (st : ObjBuffer M.Flt) (t u : Str) :
    processOneLine M opts st (('#' :: t) ++ u) = .ok st := by
  rw [List.cons_append]
  exact processOneLine_hash M opts st (t ++ u)

/-! ## Claim theorems -/

/-- Claim C1, corrected. For every corner token accepted by processFace,
a positive component value k is stored as k - 1 and a negative component
value k is stored as count + k (where count is the number of elements of
the referenced attribute array when the line is processed, so a negative
value passes through unchanged while the array is empty, matching
count = 0), with one exception the original claim misses: a normal or
texture-coordinate component equal to -1 is kept as the absent sentinel -1
and is never resolved relative to the count. The concrete conjunct checks
that after three v lines the line f -1 -2 -3 yields one face with vertex
indices [2, 1, 0]. -/
theorem c1_corner_resolution :
    (∀ (lenV lenVN lenVT : Nat) (c0 c : FaceCorner),
        resolveCorner lenV lenVN lenVT c0 = .ok c →
        c.VertexIndex = (if c0.VertexIndex > 0 then c0.VertexIndex - 1
            else (lenV : Int) + c0.VertexIndex) ∧
        c.NormalIndex = (if c0.NormalIndex > 0 then c0.NormalIndex - 1
            else if c0.NormalIndex = -1 then -1 else (lenVN : Int) + c0.NormalIndex) ∧
        c.TexCoordIndex = (if c0.TexCoordIndex > 0 then c0.TexCoordIndex - 1
            else if c0.TexCoordIndex = -1 then -1 else (lenVT : Int) + c0.TexCoordIndex)) ∧
    (Read unitModel {} ["v 0 0 0".data, "v 0 0 0".data, "v 0 0 0".data,
        "f -1 -2 -3".data]).toOption.map
      (fun b => b.F.map (fun f => f.Corners.map (fun c => c.VertexIndex))) =
      some [[2, 1, 0]] := by
  refine ⟨?_, rfl⟩
  intro lenV lenVN lenVT c0 c h
  obtain ⟨hv, hn, ht, _⟩ := resolveCorner_ok_split h
  exact ⟨resolveVertexIdx_ok hv, resolveNormalIdx_ok hn, resolveTexCoordIdx_ok ht⟩

/-- Claim C1 counterexample: with one position and two normals appended,
a face line whose corner tokens use the double-slash form with normal
component -1 succeeds and stores normal index -1 (the absent sentinel),
not count + k = 2 + (-1) = 1 as the claim requires for every negative
component value. -/
theorem c1_counterexample :
    (processFace (α := Unit) {}
        { V := [((), (), ())], VN := [((), (), ()), ((), (), ())] }
        ["1//-1".data, "1//-1".data, "1//-1".data]).toOption.map
      (fun st => st.F.map (fun f => f.Corners.map (fun c => c.NormalIndex))) =
      some [[-1, -1, -1]] ∧ ¬ ((-1 : Int) = (2 : Int) + (-1)) :=
  ⟨rfl, by decide⟩

/-- Witness for c1_corner_resolution at the concrete corner token -1 with
three positions appended: the resolver yields vertex index 3 + (-1) = 2. -/
theorem c1_witness :
    resolveCorner 3 0 0 ⟨-1, -1, -1⟩ = .ok ⟨2, -1, -1⟩ ∧
    ((2 : Int) = if (-1 : Int) > 0 then (-1 : Int) - 1 else ((3 : Nat) : Int) + (-1)) := by
  have h := c1_corner_resolution.1 3 0 0 ⟨-1, -1, -1⟩ ⟨2, -1, -1⟩ rfl
  exact ⟨rfl, h.1⟩

/-- Claim C3, corrected. The bounds validation of processFace accepts a
resolved corner exactly when: the vertex index lies in [0, len V) whenever
the position array is non-empty; the normal index is below len VN whenever
the normal array is non-empty and the index is non-negative; and likewise
for the texture-coordinate index. In particular a NEGATIVE resolved normal
or texture-coordinate index is never range-checked even against a
non-empty array (the original claim requires it to lie in [0, length)),
and while an array is empty no check is performed on its slot. The second
conjunct lifts this to processFace: every newly stored face satisfies the
accepted-corner predicate. -/
theorem c3_bounds_validation :
    (∀ (lenV lenVN lenVT : Nat) (v n t : Int),
        validateCorner lenV lenVN lenVT v n t = .ok ⟨v, n, t⟩ ↔
          ((lenV > 0 → 0 ≤ v ∧ v < (lenV : Int)) ∧
           (lenVN > 0 → 0 ≤ n → n < (lenVN : Int)) ∧
           (lenVT > 0 → 0 ≤ t → t < (lenVT : Int)))) ∧
    (∀ {α : Type} (opts : ReadOptions) (st st' : ObjBuffer α) (fields : List Str),
        processFace opts st fields = .ok st' →
        ∀ f ∈ st'.F, f ∈ st.F ∨
          ∀ c ∈ f.Corners,
            (st.V.length > 0 → 0 ≤ c.VertexIndex ∧ c.VertexIndex < (st.V.length : Int)) ∧
            (st.VN.length > 0 → 0 ≤ c.NormalIndex ∧ c.NormalIndex < (st.VN.length : Int) ∨
              c.NormalIndex < 0) ∧
            (st.VT.length > 0 → 0 ≤ c.TexCoordIndex ∧ c.TexCoordIndex < (st.VT.length : Int) ∨
              c.TexCoordIndex < 0)) := by
  refine ⟨validateCorner_ok_iff, ?_⟩
  intro α opts st st' fields h f hf
  unfold processFace at h
  by_cases hlen : fields.length < 3
  · rw [if_pos hlen] at h
    exact absurd h (by simp)
  · rw [if_neg hlen] at h
    cases hb : buildCorners st.V.length st.VN.length st.VT.length fields with
    | error e => simp only [hb] at h; exact absurd h (by simp)
    | ok cs =>
      simp only [hb] at h
      split_ifs at h with hacc
      · simp at h
        subst h
        simp at hf
        rcases hf with hf | hf
        · exact Or.inl hf
        · right
          intro c hc
          rw [hf] at hc
          have hB := buildCorners_bounds hb c hc
          exact ⟨hB.1, fun hp => by have := hB.2.1 hp; omega,
            fun hp => by have := hB.2.2 hp; omega⟩
      · simp at h
        subst h
        exact Or.inl hf

/-- Claim C3 counterexample: with one position and one normal appended,
a face line whose corner tokens use the double-slash form with normal
component -5 resolves that component to 1 + (-5) = -4, which lies outside
[0, 1), yet processFace succeeds and stores the face, raising no range
error. -/
theorem c3_counterexample :
    (processFace (α := Unit) {} { V := [((), (), ())], VN := [((), (), ())] }
        ["1//-5".data, "1//-5".data, "1//-5".data]).toOption.map
      (fun st => st.F.map (fun f => f.Corners.map (fun c => c.NormalIndex))) =
      some [[-4, -4, -4]] ∧ ¬ (0 ≤ (-4 : Int) ∧ (-4 : Int) < (1 : Int)) :=
  ⟨rfl, by decide⟩

/-- Witness for c3_bounds_validation: with two elements in every array,
the in-range corner (1, 1, 1) passes validation. -/
theorem c3_witness :
    validateCorner 2 2 2 1 1 1 = .ok ⟨1, 1, 1⟩ :=
  (c3_bounds_validation.1 2 2 2 1 1 1).mpr (by refine ⟨?_, ?_, ?_⟩ <;> (intros; omega))

/-- Claim C8, corrected. processLine is fatal on fewer than 2 fields,
and otherwise each field that strconv.Atoi accepts is stored as its value
minus one, with the active material attached; but no positivity check is
performed, so a zero or negative token is stored as a negative index (the
original claim asserts every stored corner is non-negative). -/
theorem c8_process_line :
    (∀ (α : Type) (st : ObjBuffer α) (fields : List Str),
        fields.length < 2 → processLine st fields = .error .fieldCount) ∧
    (∀ (α : Type) (st st' : ObjBuffer α) (fields : List Str),
        processLine st fields = .ok st' →
          2 ≤ fields.length ∧
          (∀ f ∈ fields, (goAtoi f).isSome) ∧
          st'.L = st.L ++
            [⟨fields.map (fun f => (goAtoi f).getD 0 - 1), st.activeMaterial⟩] ∧
          st'.V = st.V ∧ st'.F = st.F ∧ st'.G = st.G) := by
  constructor
  · intro α st fields hlen
    unfold processLine
    rw [if_pos hlen]
  · intro α st st' fields h
    unfold processLine at h
    by_cases hlen : fields.length < 2
    · rw [if_pos hlen] at h
      exact absurd h (by simp)
    · rw [if_neg hlen] at h
      cases hp : parseLineCorners fields with
      | error e => simp only [hp] at h; exact absurd h (by simp)
      | ok ks =>
        simp only [hp] at h
        simp at h
        subst h
        obtain ⟨h1, h2⟩ := parseLineCorners_spec hp
        exact ⟨by omega, h2, by rw [h1], rfl, rfl, rfl⟩

/-- Claim C8 counterexample: the line l 0 1 is accepted (two integer
fields) and stores the corner list [-1, 0]; the stored corner -1 is
negative, contradicting the claimed non-negativity of stored line
corners. -/
theorem c8_counterexample :
    (processLine (α := Unit) {} ["0".data, "1".data]).toOption.map
      (fun st => st.L.map (fun l => l.Corners)) = some [[-1, 0]] ∧
    ¬ (0 ≤ (-1 : Int)) :=
  ⟨rfl, by decide⟩

/-- Witness for c8_process_line: one field is fatal, and l 2 3 stores
corners [1, 2] with the active material. -/
theorem c8_witness :
    processLine (α := Unit) {} ["1".data] = .error .fieldCount ∧
    (2 ≤ ([("2".data : Str), "3".data] : List Str).length) := by
  refine ⟨c8_process_line.1 Unit {} ["1".data] (by decide), ?_⟩
  have h := c8_process_line.2 Unit {}
    { L := [⟨[1, 2], []⟩] } [("2".data : Str), "3".data] rfl
  exact h.1

/-- Claim C4, confirmed. For a face range inside the source face list
whose corners carry in-bounds vertex and normal indices, buildBuffers
succeeds and returns a buffer whose position array lists, in
first-encounter order and each exactly once (seenFold is the
first-encounter dedup of the reference stream and is proved Nodup and
coextensive with the stream), the source positions at the distinct vertex
indices referenced by the range, and likewise for normals; every copied
face translates its vertex and normal indices through the first-encounter
mapping and copies its material verbatim; and the new position array never
outgrows the number of distinct referenced vertex indices. -/
theorem c4_extraction :
    ∀ (α : Type) (g : Group) (b : ObjBuffer α),
      0 ≤ g.FirstFaceIndex → 0 ≤ g.FaceCount →
      g.FirstFaceIndex + g.FaceCount ≤ (b.F.length : Int) →
      (∀ f ∈ rangeFaces b g, ∀ c ∈ f.Corners,
        (0 ≤ c.VertexIndex ∧ c.VertexIndex < (b.V.length : Int)) ∧
        (0 ≤ c.NormalIndex ∧ c.NormalIndex < (b.VN.length : Int))) →
      ∃ res, buildBuffers g b = some res ∧
        res.V.map some =
          (seenFold [] (faceVertexRefs (rangeFaces b g))).map
            (fun i => b.V.get? i.toNat) ∧
        res.VN.map some =
          (seenFold [] (faceNormalRefs (rangeFaces b g))).map
            (fun i => b.VN.get? i.toNat) ∧
        res.F = (rangeFaces b g).map (fun f =>
          (⟨f.Corners.map (fun c =>
              (⟨((seenFold [] (faceVertexRefs (rangeFaces b g))).indexOf
                    c.VertexIndex : Int),
                ((seenFold [] (faceNormalRefs (rangeFaces b g))).indexOf
                    c.NormalIndex : Int),
                0⟩ : FaceCorner)), f.Material⟩ : Face)) ∧
        (seenFold [] (faceVertexRefs (rangeFaces b g))).Nodup ∧
        (∀ x, x ∈ seenFold [] (faceVertexRefs (rangeFaces b g)) ↔
          x ∈ faceVertexRefs (rangeFaces b g)) ∧
        res.V.length ≤ (faceVertexRefs (rangeFaces b g)).toFinset.card := by
  intro α g b h0 h1 h2 hb
  have hsl : sliceFaces b.F g.FirstFaceIndex g.FaceCount = some (rangeFaces b g) :=
    sliceFaces_eq h0 h1 h2
  have hb2 : ∀ f ∈ rangeFaces b g, ∀ c ∈ f.Corners,
      0 ≤ c.VertexIndex ∧ c.VertexIndex.toNat < b.V.length ∧
      0 ≤ c.NormalIndex ∧ c.NormalIndex.toNat < b.VN.length := by
    intro f hf c hc
    obtain ⟨⟨ha, hb1⟩, hc1, hd⟩ := hb f hf c hc
    exact ⟨ha, by omega, hc1, by omega⟩
  obtain ⟨s1, hloop, hinv, hF, hM, hG⟩ := buildFacesLoop_spec (buildInv_init g b) hb2
  obtain ⟨hpar, hmV, hmN, haV, haN⟩ := hinv
  have hmemiff : ∀ x, x ∈ seenFold [] (faceVertexRefs (rangeFaces b g)) ↔
      x ∈ faceVertexRefs (rangeFaces b g) := by
    intro x
    rw [mem_seenFold_iff]
    simp
  refine ⟨s1.buffer, ?_, haV, haN, ?_, hmV.2.2.1, hmemiff, ?_⟩
  · have hrun : buildBuffersRun g b = some (s1.parent, s1.buffer) := by
      simp only [buildBuffersRun, hsl, hloop]
    unfold buildBuffers
    rw [hrun]
    rfl
  · rw [hF]
    simp
  · have hlen : s1.buffer.V.length =
        (seenFold [] (faceVertexRefs (rangeFaces b g))).length := by
      have hh := congrArg List.length haV
      simpa using hh
    rw [hlen, ← List.toFinset_card_of_nodup hmV.2.2.1]
    apply Finset.card_le_card
    intro x hx
    rw [List.mem_toFinset] at hx ⊢
    exact (hmemiff x).mp hx

/-- Witness for c4_extraction on a one-face buffer with a single position
and a single normal: extraction succeeds. -/
theorem c4_witness :
    (buildBuffers (α := Unit) ⟨"G1".data, 0, 1⟩
      { V := [((), (), ())], VN := [((), (), ())],
        F := [⟨[⟨0, 0, 0⟩], []⟩] }).isSome := by
  obtain ⟨res, hres, _⟩ := c4_extraction Unit ⟨"G1".data, 0, 1⟩
    { V := [((), (), ())], VN := [((), (), ())], F := [⟨[⟨0, 0, 0⟩], []⟩] }
    (by decide) (by decide) (by decide) (by decide)
  rw [hres]
  rfl

/-- Claim C9, confirmed. buildBuffers threads the parent buffer through
its loops without ever writing to it: whenever the state-passing model of
the extraction returns, the parent component is the original buffer
unchanged (arrays, faces, lines, groups and material-library name all
included), so extraction only writes the freshly allocated result. -/
theorem c9_no_parent_mutation :
    ∀ (α : Type) (g : Group) (b p r : ObjBuffer α),
      buildBuffersRun g b = some (p, r) → p = b := by
  intro α g b p r h
  simp only [buildBuffersRun] at h
  split at h
  · exact absurd h (by simp)
  · rename_i fs hsf
    split at h
    · exact absurd h (by simp)
    · rename_i s hLoop
      simp at h
      have hp := buildFacesLoop_parent hLoop
      rw [← h.1, hp]

/-- Witness for c9_no_parent_mutation on a concrete one-face buffer. -/
theorem c9_witness :
    ({ V := [((), (), ())], VN := [((), (), ())],
       F := [⟨[⟨0, 0, 0⟩], "m".data⟩] } : ObjBuffer Unit) =
    { V := [((), (), ())], VN := [((), (), ())],
      F := [⟨[⟨0, 0, 0⟩], "m".data⟩] } :=
  c9_no_parent_mutation Unit ⟨"W".data, 0, 1⟩
    { V := [((), (), ())], VN := [((), (), ())], F := [⟨[⟨0, 0, 0⟩], "m".data⟩] }
    _ _ rfl

/-- Claim C10, confirmed. Under the precondition that every corner of
every face in the extracted range has VertexIndex in the position-array
range and NormalIndex in the normal-array range, every slice access of
buildBuffers is in bounds and the extraction returns a buffer; and a
corner whose NormalIndex is the absent sentinel -1 makes the
normalMapping lookup out of bounds (the Option model returns none where
the Go code panics), so extraction indeed requires present, in-bounds
normal indices. -/
theorem c10_access_safety :
    (∀ (α : Type) (g : Group) (b : ObjBuffer α),
      0 ≤ g.FirstFaceIndex → 0 ≤ g.FaceCount →
      g.FirstFaceIndex + g.FaceCount ≤ (b.F.length : Int) →
      (∀ f ∈ rangeFaces b g, ∀ c ∈ f.Corners,
        (0 ≤ c.VertexIndex ∧ c.VertexIndex < (b.V.length : Int)) ∧
        (0 ≤ c.NormalIndex ∧ c.NormalIndex < (b.VN.length : Int))) →
      (buildBuffers g b).isSome) ∧
    buildBuffers (α := Unit) ⟨"g".data, 0, 1⟩
      { V := [((), (), ())], VN := [((), (), ())],
        F := [⟨[⟨0, -1, -1⟩], []⟩] } = none := by
  constructor
  · intro α g b h0 h1 h2 hb
    have hsl : sliceFaces b.F g.FirstFaceIndex g.FaceCount = some (rangeFaces b g) :=
      sliceFaces_eq h0 h1 h2
    have hb2 : ∀ f ∈ rangeFaces b g, ∀ c ∈ f.Corners,
        0 ≤ c.VertexIndex ∧ c.VertexIndex.toNat < b.V.length ∧
        0 ≤ c.NormalIndex ∧ c.NormalIndex.toNat < b.VN.length := by
      intro f hf c hc
      obtain ⟨⟨ha, hb1⟩, hc1, hd⟩ := hb f hf c hc
      exact ⟨ha, by omega, hc1, by omega⟩
    obtain ⟨s1, hloop, _, _, _, _⟩ := buildFacesLoop_spec (buildInv_init g b) hb2
    have hrun : buildBuffersRun g b = some (s1.parent, s1.buffer) := by
      simp only [buildBuffersRun, hsl, hloop]
    unfold buildBuffers
    rw [hrun]
    rfl
  · rfl

/-- Witness for c10_access_safety on an in-bounds two-position buffer. -/
theorem c10_witness :
    (buildBuffers (α := Unit) ⟨"w".data, 0, 1⟩
      { V := [((), (), ()), ((), (), ())], VN := [((), (), ())],
        F := [⟨[⟨1, 0, 0⟩], []⟩] }).isSome :=
  c10_access_safety.1 Unit ⟨"w".data, 0, 1⟩
    { V := [((), (), ()), ((), (), ())], VN := [((), (), ())],
      F := [⟨[⟨1, 0, 0⟩], []⟩] }
    (by decide) (by decide) (by decide) (by decide)

/-- Claim C2, corrected. After a successful Read, every explicitly opened
group that is retained has a strictly positive face count (closing a group
with an empty face range discards it), so every group after the first in
the group list has a strictly positive count; but the list head may be the
synthetic default group, which endGroup appends whenever it runs with no
group open (at the first g line, or at end of input) and whose count is
the number of faces parsed up to that point, possibly zero. In particular
the input g A, g B, one face yields the group list
[default group with 0 faces, B with 1 face], not only B as claimed. -/
theorem c2_group_counts :
    (∀ (M : FloatModel) (opts : ReadOptions) (lines : List Str)
        (st : ObjBuffer M.Flt), Read M opts lines = .ok st →
      (∀ g ∈ st.G.tail, 0 < g.FaceCount) ∧ (∀ g ∈ st.G, 0 ≤ g.FaceCount)) ∧
    (Read unitModel {} ["g A".data, "g B".data, "f 1 2 3".data]).toOption.map
      (fun b => b.G.map (fun g => (g.Name, g.FaceCount))) =
      some [("default group".data, 0), ("B".data, 1)] := by
  refine ⟨?_, rfl⟩
  intro M opts lines st h
  unfold Read at h
  cases hr : readLinesAux M opts lines 0 {} with
  | error e => simp only [hr] at h; exact absurd h (by simp)
  | ok st1 =>
    simp only [hr] at h
    simp at h
    have hinv : gTrackInv st1.G st1.F.length :=
      readLinesAux_gInv hr (Or.inl rfl)
    have hok := (endGroup_groupCountsOk hinv).1
    have hG : st.G = (endGroup st1).G := by
      rw [← h]
      unfold finishFaceGroups
      split <;> rfl
    rw [hG]
    exact ⟨hok.2, hok.1⟩

/-- Claim C2 counterexample: reading g A, then g B, then one face line
leaves a zero-face group in the final group list (the synthetic default
group created by the first g line), and the list is not just group B. -/
theorem c2_counterexample :
    (Read unitModel {} ["g A".data, "g B".data, "f 1 2 3".data]).toOption.map
      (fun b => b.G.map (fun g => g.FaceCount)) = some [0, 1] ∧
    ¬ ((0 : Int) > 0) :=
  ⟨rfl, by decide⟩

/-- Witness for c2_group_counts on the input with groups A and B: the
retained explicit group B has count 1 > 0 and the synthetic head has
count 0 >= 0. -/
theorem c2_witness : (0 : Int) < 1 ∧ (0 : Int) ≤ 0 := by
  have h := c2_group_counts.1 unitModel {}
    ["g A".data, "g B".data, "f 1 2 3".data] _ rfl
  exact ⟨h.1 ⟨"B".data, 0, 1⟩ (by decide), h.2 ⟨"default group".data, 0, 0⟩ (by decide)⟩

/-- Claim C5, confirmed. Triangulate terminates for every input face and
position array: the ear-clipping loop stabilizes at the a-priori fuel
bound triFuel (each step removes a corner, advances the scan start, or
consumes one sweep of the 10-sweep cap, strictly decreasing the measure);
when the cap is exhausted (rounds = 0) before the ring shrinks to 3
corners the loop exits successfully and triFinish drops the unresolved
remainder without an error; and when exactly 3 corners remain triFinish
emits the final triangle unconditionally. -/
theorem c5_triangulator_termination {α : Type} (A : TriArith α)
    (V : List (Vec3 α)) (a0 a1 : Nat) (area : α) (rem : List FaceCorner)
    (guess rounds : Nat) (ret : List (List FaceCorner)) (fuel : Nat)
    (hfuel : triFuel rem guess rounds ≤ fuel) :
    (triMainLoop A V a0 a1 area fuel rem guess rounds ret =
      triMainLoop A V a0 a1 area (triFuel rem guess rounds) rem guess rounds ret) ∧
    (rounds = 0 ∨ rem.length ≤ 3 →
      triMainLoop A V a0 a1 area fuel rem guess rounds ret = some (rem, ret)) ∧
    (rem.length ≠ 3 → triFinish rem ret = ret) ∧
    (rem.length = 3 →
      triFinish rem ret =
        ret ++ [[rem.getD 0 dummyCorner, rem.getD 1 dummyCorner,
          rem.getD 2 dummyCorner]]) := by
  obtain ⟨m, rfl⟩ : ∃ m, fuel = m + 1 :=
    ⟨fuel - 1, by have h := hfuel; unfold triFuel at h; omega⟩
  refine ⟨triMainLoop_fuel_stable A V a0 a1 area (m + 1) rem guess rounds ret hfuel,
    ?_, ?_, ?_⟩
  · intro hcap
    simp only [triMainLoop]
    rw [if_neg (show ¬(3 < rem.length ∧ 0 < rounds) by
      rcases hcap with h | h <;> omega)]
  · intro hne
    unfold triFinish
    rw [if_neg hne]
  · intro he
    unfold triFinish
    rw [if_pos he]

/-- Witness for c5_triangulator_termination on a 4-corner ring with the
cap already exhausted: the loop returns its state unchanged and triFinish
drops the remainder. -/
theorem c5_witness :
    triFuel (List.replicate 4 dummyCorner) 0 0 ≤ 29 ∧
    ((triMainLoop intArith [] 0 1 0 29 (List.replicate 4 dummyCorner) 0 0 [] =
      triMainLoop intArith [] 0 1 0 (triFuel (List.replicate 4 dummyCorner) 0 0)
        (List.replicate 4 dummyCorner) 0 0 []) ∧
    (0 = 0 ∨ (List.replicate 4 dummyCorner).length ≤ 3 →
      triMainLoop intArith [] 0 1 0 29 (List.replicate 4 dummyCorner) 0 0 [] =
      some (List.replicate 4 dummyCorner, [])) ∧
    ((List.replicate 4 dummyCorner).length ≠ 3 →
      triFinish (List.replicate 4 dummyCorner) [] = []) ∧
    ((List.replicate 4 dummyCorner).length = 3 →
      triFinish (List.replicate 4 dummyCorner) [] =
        [] ++ [[(List.replicate 4 dummyCorner).getD 0 dummyCorner,
          (List.replicate 4 dummyCorner).getD 1 dummyCorner,
          (List.replicate 4 dummyCorner).getD 2 dummyCorner]])) :=
  ⟨by decide,
    c5_triangulator_termination intArith [] 0 1 0 (List.replicate 4 dummyCorner)
      0 0 [] 29 (by decide)⟩

/-- Claim C6, corrected. For every buffer satisfying the well-formedness
that a successful parse guarantees on the written fields (scalar tokens
that reparse to the same value and contain no whitespace or hash, a
material-library name and group names free of hash, newline and edge
whitespace, group ranges inside the face array with non-negative counts,
and faces with at least 3 corners whose stored indices are non-negative
and in bounds whenever the referenced array is non-empty), writing the
buffer and reading the written text back with default options yields
identical position, normal and texture-coordinate arrays and the same
material library name, but NOT the same group list as the original: the
re-read group list is the synthetic zero-count default group followed by
exactly the positive-count groups of the original, with names and counts
preserved. -/
theorem c6_write_read_roundtrip (M : FloatModel) (b : ObjBuffer M.Flt)
    (hparse : ∀ x, M.parse (M.fmt x) = some x)
    (hfmt : ∀ x, M.fmt x ≠ [] ∧ ∀ ch ∈ M.fmt x, isGoSpace ch = false ∧ ch ≠ '#')
    (hmtl : goodName b.MTL)
    (hg : ∀ g ∈ b.G, goodName g.Name ∧ 0 ≤ g.FaceCount ∧
      (0 < g.FaceCount → 0 ≤ g.FirstFaceIndex ∧
        g.FirstFaceIndex + g.FaceCount ≤ (b.F.length : Int)))
    (hf : ∀ f ∈ b.F, wfFace b.V.length b.VN.length b.VT.length f) :
    ∃ ls b2, writeLines M b = some ls ∧ Read M {} ls = .ok b2 ∧
      b2.V = b.V ∧ b2.VN = b.VN ∧ b2.VT = b.VT ∧ b2.MTL = b.MTL ∧
      b2.G.map (fun g => (g.Name, g.FaceCount)) =
        ("default group".data, (0 : Int)) ::
          (b.G.filter (fun g => 0 < g.FaceCount)).map
            (fun g => (g.Name, g.FaceCount)) := by
  obtain ⟨gl, hgl⟩ := writeGroupsLines_total b.F b.G
    (fun g hx => ⟨(hg g hx).2.1, (hg g hx).2.2⟩)
  have hopts : ({} : ReadOptions).DiscardDegeneratedFaces = false := rfl
  have hwl : writeLines M b = some ("# Exported using RenderDB".data ::
      ("# ".data ++ natDigits b.V.length ++ " vertices, ".data ++
        natDigits b.VN.length ++ " normals, ".data ++
        natDigits b.F.length ++ " faces".data) ::
      ((if b.MTL.isEmpty then [] else ["mtllib ".data ++ b.MTL]) ++
        (b.V.map (writeVec3Line M.fmt "v".data) ++
          (b.VN.map (writeVec3Line M.fmt "vn".data) ++
            (b.VT.map (writeVec2Line M.fmt "vt".data) ++ gl))))) := by
    unfold writeLines
    rw [hgl]
  have hstep : ∀ (raw : Str) (st st' : ObjBuffer M.Flt),
      processOneLine M {} st raw = .ok st' →
      ∀ (rest : List Str) (i : Nat),
      readLinesAux M {} (raw :: rest) i st = readLinesAux M {} rest (i + 1) st' := by
    intro raw st st' h rest i
    simp only [readLinesAux, h]
  have hh1 : processOneLine M {} ({} : ObjBuffer M.Flt)
      ("# Exported using RenderDB".data) = .ok {} := by
    rw [show ("# Exported using RenderDB".data : Str) =
      '#' :: " Exported using RenderDB".data from rfl]
    exact processOneLine_hash M {} {} _
  have hh2 : processOneLine M {} ({} : ObjBuffer M.Flt)
      ("# ".data ++ natDigits b.V.length ++ " vertices, ".data ++
        natDigits b.VN.length ++ " normals, ".data ++
        natDigits b.F.length ++ " faces".data) = .ok {} := by
    rw [show ("# ".data : Str) = '#' :: [' '] from rfl, List.cons_append]
    exact processOneLine_hash M {} {} _
  have hVchain : ∀ (i : Nat) (mtl0 : Str),
      readLinesAux M {}
        (b.V.map (writeVec3Line M.fmt "v".data) ++
          (b.VN.map (writeVec3Line M.fmt "vn".data) ++
            (b.VT.map (writeVec2Line M.fmt "vt".data) ++ gl))) i
        (⟨[], mtl0, [], [], [], [], [], [], []⟩ : ObjBuffer M.Flt) =
      readLinesAux M {} gl
        (i + (b.V.map (writeVec3Line M.fmt "v".data)).length +
          (b.VN.map (writeVec3Line M.fmt "vn".data)).length +
          (b.VT.map (writeVec2Line M.fmt "vt".data)).length)
        (⟨[], mtl0, b.V, b.VN, b.VT, [], [], [], []⟩ : ObjBuffer M.Flt) := by
    intro i mtl0
    have hv : readLinesAux M {} (b.V.map (writeVec3Line M.fmt "v".data)) i
        (⟨[], mtl0, [], [], [], [], [], [], []⟩ : ObjBuffer M.Flt) =
        .ok (⟨[], mtl0, b.V, [], [], [], [], [], []⟩ : ObjBuffer M.Flt) :=
      readLines_vblock M {} hparse hfmt b.V i _
    rw [readLinesAux_append M {} _ _ i _ _ hv]
    have hvn : readLinesAux M {} (b.VN.map (writeVec3Line M.fmt "vn".data))
        (i + (b.V.map (writeVec3Line M.fmt "v".data)).length)
        (⟨[], mtl0, b.V, [], [], [], [], [], []⟩ : ObjBuffer M.Flt) =
        .ok (⟨[], mtl0, b.V, b.VN, [], [], [], [], []⟩ : ObjBuffer M.Flt) :=
      readLines_vnblock M {} hparse hfmt b.VN _ _
    rw [readLinesAux_append M {} _ _ _ _ _ hvn]
    have hvt : readLinesAux M {} (b.VT.map (writeVec2Line M.fmt "vt".data))
        (i + (b.V.map (writeVec3Line M.fmt "v".data)).length +
          (b.VN.map (writeVec3Line M.fmt "vn".data)).length)
        (⟨[], mtl0, b.V, b.VN, [], [], [], [], []⟩ : ObjBuffer M.Flt) =
        .ok (⟨[], mtl0, b.V, b.VN, b.VT, [], [], [], []⟩ : ObjBuffer M.Flt) :=
      readLines_vtblock M {} hparse hfmt b.VT _ _
    rw [readLinesAux_append M {} _ _ _ _ _ hvt]
  have hcont : ∀ iE : Nat, ∃ st2,
      readLinesAux M {} gl iE
        (⟨[], b.MTL, b.V, b.VN, b.VT, [], [], [], []⟩ : ObjBuffer M.Flt) =
        .ok st2 ∧
      st2.V = b.V ∧ st2.VN = b.VN ∧ st2.VT = b.VT ∧ st2.MTL = b.MTL ∧
      (endGroup st2).G.map (fun g => (g.Name, g.FaceCount)) =
        ("default group".data, (0 : Int)) ::
          (b.G.filter (fun g => 0 < g.FaceCount)).map
            (fun g => (g.Name, g.FaceCount)) := by
    intro iE
    obtain ⟨st2, h1, _, h3, h4, h5, h6, h7⟩ :=
      readLines_groups M {} hopts b.F b.G
        (fun g hx => ⟨(hg g hx).1, (hg g hx).2.1⟩) gl hgl iE
        (⟨[], b.MTL, b.V, b.VN, b.VT, [], [], [], []⟩ : ObjBuffer M.Flt)
        rfl hf
    have hEG : (endGroup
        (⟨[], b.MTL, b.V, b.VN, b.VT, [], [], [], []⟩ : ObjBuffer M.Flt)).G =
        [⟨"default group".data, 0, 0⟩] := by
      simp [endGroup]
    rw [hEG] at h7
    exact ⟨st2, h1, h3, h4, h5, h6, by simpa using h7⟩
  by_cases hM : b.MTL = []
  · have hif : ((if b.MTL.isEmpty then [] else ["mtllib ".data ++ b.MTL]) ++
        (b.V.map (writeVec3Line M.fmt "v".data) ++
          (b.VN.map (writeVec3Line M.fmt "vn".data) ++
            (b.VT.map (writeVec2Line M.fmt "vt".data) ++ gl)))) =
        (b.V.map (writeVec3Line M.fmt "v".data) ++
          (b.VN.map (writeVec3Line M.fmt "vn".data) ++
            (b.VT.map (writeVec2Line M.fmt "vt".data) ++ gl))) := by
      rw [hM]
      simp
    obtain ⟨st2, hrun2, hV2, hVN2, hVT2, hMTL2, hG2⟩ :=
      hcont (2 + (b.V.map (writeVec3Line M.fmt "v".data)).length +
        (b.VN.map (writeVec3Line M.fmt "vn".data)).length +
        (b.VT.map (writeVec2Line M.fmt "vt".data)).length)
    have hfull : readLinesAux M {} ("# Exported using RenderDB".data ::
        ("# ".data ++ natDigits b.V.length ++ " vertices, ".data ++
          natDigits b.VN.length ++ " normals, ".data ++
          natDigits b.F.length ++ " faces".data) ::
        ((if b.MTL.isEmpty then [] else ["mtllib ".data ++ b.MTL]) ++
          (b.V.map (writeVec3Line M.fmt "v".data) ++
            (b.VN.map (writeVec3Line M.fmt "vn".data) ++
              (b.VT.map (writeVec2Line M.fmt "vt".data) ++ gl))))) 0
        ({} : ObjBuffer M.Flt) = .ok st2 := by
      rw [hstep _ _ _ hh1, hstep _ _ _ hh2, hif]
      have hstart : ({} : ObjBuffer M.Flt) =
          (⟨[], b.MTL, [], [], [], [], [], [], []⟩ : ObjBuffer M.Flt) := by
        rw [hM]
      rw [hstart, hVchain 2 b.MTL]
      exact hrun2
    refine ⟨_, finishFaceGroups (endGroup st2), hwl, ?_, ?_, ?_, ?_, ?_, ?_⟩
    · unfold Read
      rw [hfull]
    · rw [(finishFaceGroups_frame _).1, (endGroup_frame st2).2.2.1, hV2]
    · rw [(finishFaceGroups_frame _).2.1, (endGroup_frame st2).2.2.2.1, hVN2]
    · rw [(finishFaceGroups_frame _).2.2.1, (endGroup_frame st2).2.2.2.2.1, hVT2]
    · rw [(finishFaceGroups_frame _).2.2.2.1, (endGroup_frame st2).2.1, hMTL2]
    · rw [(finishFaceGroups_frame _).2.2.2.2, hG2]
  · obtain ⟨st2, hrun2, hV2, hVN2, hVT2, hMTL2, hG2⟩ :=
      hcont (3 + (b.V.map (writeVec3Line M.fmt "v".data)).length +
        (b.VN.map (writeVec3Line M.fmt "vn".data)).length +
        (b.VT.map (writeVec2Line M.fmt "vt".data)).length)
    have hif : (if b.MTL.isEmpty then ([] : List Str)
        else ["mtllib ".data ++ b.MTL]) = ["mtllib ".data ++ b.MTL] := by
      rw [if_neg (by simp [hM])]
    have hm1 : readLinesAux M {} ["mtllib ".data ++ b.MTL] 2
        ({} : ObjBuffer M.Flt) =
        .ok (⟨[], b.MTL, [], [], [], [], [], [], []⟩ : ObjBuffer M.Flt) := by
      simp only [readLinesAux, processOneLine_mtllib M {} {} b.MTL hmtl hM rfl]
    have hfull : readLinesAux M {} ("# Exported using RenderDB".data ::
        ("# ".data ++ natDigits b.V.length ++ " vertices, ".data ++
          natDigits b.VN.length ++ " normals, ".data ++
          natDigits b.F.length ++ " faces".data) ::
        ((if b.MTL.isEmpty then [] else ["mtllib ".data ++ b.MTL]) ++
          (b.V.map (writeVec3Line M.fmt "v".data) ++
            (b.VN.map (writeVec3Line M.fmt "vn".data) ++
              (b.VT.map (writeVec2Line M.fmt "vt".data) ++ gl))))) 0
        ({} : ObjBuffer M.Flt) = .ok st2 := by
      rw [hstep _ _ _ hh1, hstep _ _ _ hh2, hif]
      rw [readLinesAux_append M {} _ _ 2 _ _ hm1]
      have hlen1 : (2 + (["mtllib ".data ++ b.MTL] : List Str).length) = 3 := rfl
      rw [hlen1, hVchain 3 b.MTL]
      exact hrun2
    refine ⟨_, finishFaceGroups (endGroup st2), hwl, ?_, ?_, ?_, ?_, ?_, ?_⟩
    · unfold Read
      rw [hfull]
    · rw [(finishFaceGroups_frame _).1, (endGroup_frame st2).2.2.1, hV2]
    · rw [(finishFaceGroups_frame _).2.1, (endGroup_frame st2).2.2.2.1, hVN2]
    · rw [(finishFaceGroups_frame _).2.2.1, (endGroup_frame st2).2.2.2.2.1, hVT2]
    · rw [(finishFaceGroups_frame _).2.2.2.1, (endGroup_frame st2).2.1, hMTL2]
    · rw [(finishFaceGroups_frame _).2.2.2.2, hG2]

/-- Claim C6 counterexample: the buffer parsed from the single line
f 1 2 3 has the group list [default group(1)]; writing it and re-reading
the written text yields the group list [default group(0),
default group(1)], so the round trip does not reproduce equivalent group
names and face counts. -/
theorem c6_counterexample :
    ((Read unitModel {} ["f 1 2 3".data]).toOption.bind (fun b =>
      (writeLines unitModel b).bind (fun ls =>
        (Read unitModel {} ls).toOption.map (fun b2 =>
          (b.G.map (fun g => (g.Name, g.FaceCount)),
           b2.G.map (fun g => (g.Name, g.FaceCount))))))) =
      some ([("default group".data, 1)],
        [("default group".data, 0), ("default group".data, 1)]) ∧
    ¬ ([(("default group".data : Str), (1 : Int))] =
       [("default group".data, 0), ("default group".data, 1)]) :=
  ⟨by decide, by decide⟩

/-- Witness for c6_write_read_roundtrip on a one-face buffer whose single
group is the default group covering the face: the written text re-reads
with identical arrays and the group projection gains the synthetic
zero-count head. -/
theorem c6_witness :
    ∃ ls b2, writeLines unitModel
        { F := [⟨[⟨0, -1, -1⟩, ⟨1, -1, -1⟩, ⟨2, -1, -1⟩], []⟩],
          G := [⟨"default group".data, 0, 1⟩] } = some ls ∧
      Read unitModel {} ls = .ok b2 ∧
      b2.V = [] ∧ b2.VN = [] ∧ b2.VT = [] ∧ b2.MTL = [] ∧
      b2.G.map (fun g => (g.Name, g.FaceCount)) =
        ("default group".data, (0 : Int)) ::
          ((([⟨"default group".data, 0, 1⟩] : List Group).filter
            (fun g => 0 < g.FaceCount)).map (fun g => (g.Name, g.FaceCount))) :=
  c6_write_read_roundtrip unitModel
    { F := [⟨[⟨0, -1, -1⟩, ⟨1, -1, -1⟩, ⟨2, -1, -1⟩], []⟩],
      G := [⟨"default group".data, 0, 1⟩] }
    (fun x => rfl)
    (by
      intro x
      cases x
      decide)
    (by unfold goodName; decide)
    (by
      intro g hgm
      simp only [List.mem_singleton] at hgm
      subst hgm
      unfold goodName
      decide)
    (by
      intro f hfm
      simp only [List.mem_singleton] at hfm
      subst hfm
      unfold wfFace wfCorner
      decide)

end GoObj
